import Mathlib

/-!
Verification development for the spectrogram worker of the bioacoustics
annotator (src/renderer/spectrogram/SpectrogramPlayer.tsx, worker section).

Modelling conventions:
* JS numbers are modelled as `Int` (integer-valued parameters, frame and
  sample indices) and `Rat` (times, spectral magnitudes).  The display
  pipeline, which the spec explicitly exercises on NaN/Infinity inputs,
  uses `FVal`, an extended-rational value domain with JS float semantics
  for the operations the worker performs.
* The Spectral Primitive `mel_spectrogram_db` is an external WASM
  collaborator (spec section 2 treats it as an opaque function).  It is
  modelled shift-invariantly by two parameters: `melAt pos`, the output
  row for the analysis window anchored at absolute sample `pos` of the
  loaded PCM, and `cnt L`, the number of rows returned for an input slice
  of `L` samples, so that a call on the subarray starting at sample `a`
  returns the rows `melAt (a + k * hop)` for `k < cnt L`.
* `Float32Array.prototype.subarray` / `Array.prototype.slice` index
  clamping (including negative relative-from-end indices) is modelled by
  `jsSliceIdx` / `jsSlice`.
* JS `Map` mutation is modelled by prepending to an association list and
  looking up the first match, which is observationally the same store.
-/

namespace SpectroWorker

/-- Clamp one JS slice/subarray index to an array of length `len`:
negative indices count from the end, others are clamped to the length. -/
def jsSliceIdx (len : Nat) (i : Int) : Nat :=
  if i < 0 then ((len : Int) + i).toNat else min i.toNat len

/-- JS `Array.prototype.slice l a b` (also `subarray` on typed arrays). -/
def jsSlice {α : Type} (l : List α) (a b : Int) : List α :=
  (l.drop (jsSliceIdx l.length a)).take (jsSliceIdx l.length b - jsSliceIdx l.length a)

/-- First-match association-list lookup (JS `Map.get`). -/
def assocFind {κ α : Type} [DecidableEq κ] (k : κ) : List (κ × α) → Option α
  | [] => none
  | (k', v) :: rest => if k = k' then some v else assocFind k rest

/-- The `params` field of a render message (RenderMsg in the source). -/
structure Params where
  sampleRate : Int
  n_fft : Int
  win_length : Int
  hop_length : Int
  f_min : Rat
  f_max : Rat
  n_mels : Nat
  top_db : Rat
  t0 : Rat
  windowDuration : Rat
  dynamicGain : Bool
  autoGamma : Bool
  gammaValue : Rat
  gainPercentile : Rat
  brightness : Rat
  contrast : Rat
deriving DecidableEq

/-- A tile descriptor (`type Tile = { startFrame; frames }` in the source). -/
structure Tile where
  startFrame : Int
  frames : Int
deriving DecidableEq

/-- Tile cache key: the source builds the string
`fileId:startFrame:tileFrames:sampleRate:n_fft:win_length:hop_length:n_mels:f_min:f_max:top_db`;
we keep the same components as a structured key. -/
structure TileKey where
  fileId : String
  startFrame : Int
  frames : Int
  sampleRate : Int
  n_fft : Int
  win_length : Int
  hop_length : Int
  n_mels : Nat
  f_min : Rat
  f_max : Rat
  top_db : Rat
deriving DecidableEq

/-- `tileKey` from the source. -/
def tileKey (fileId : String) (startFrame frames : Int) (p : Params) : TileKey :=
  ⟨fileId, startFrame, frames, p.sampleRate, p.n_fft, p.win_length, p.hop_length,
   p.n_mels, p.f_min, p.f_max, p.top_db⟩

/-- One `pcmStore` entry: sample rate plus the PCM length; the sample
content itself only feeds the external primitive, which the `melAt`
parameter abstracts, so only the length is tracked. -/
structure PcmEntry where
  sampleRate : Int
  len : Nat
deriving DecidableEq

/-- Worker state: `pcmStore` and `melTileCache` from the source. -/
structure WState where
  pcmStore : List (String × PcmEntry)
  cache : List (TileKey × List Rat)
deriving DecidableEq

/-- `TILE_FRAMES` constant from the source. -/
def TILE_FRAMES : Int := 1024

/-- `framesPerSecond = sampleRate / hop_length` (exact rational division;
the worker computes it in floats). -/
def fps (p : Params) : Rat := (p.sampleRate : Rat) / (p.hop_length : Rat)

/-- `framesForWindow` from the source: `F0 = floor(t0*fps)`,
`totalFrames = max(1, floor(windowDuration*fps))`, `F1 = F0+totalFrames-1`. -/
def framesForWindow (p : Params) : Int × Int :=
  let F0 := Int.floor (p.t0 * fps p)
  let totalFrames := max 1 (Int.floor (p.windowDuration * fps p))
  (F0, F0 + totalFrames - 1)

/-- The needed-tile loop of `analyzeTiles`, with explicit fuel (the JS
loop advances `cursor` by at least one frame per iteration, so
`(F1 + 1 - F0).toNat` fuel reproduces it exactly). -/
def neededGoF (F1 : Int) : Nat → Int → List Tile
  | 0, _ => []
  | fuel + 1, cursor =>
    if cursor ≤ F1 then
      let frames := min TILE_FRAMES (F1 - cursor + 1)
      ⟨cursor, frames⟩ :: neededGoF F1 fuel (cursor + frames)
    else []

/-- The list of needed tiles covering `[F0, F1]` (source: first loop of
`analyzeTiles`). -/
def neededTiles (F0 F1 : Int) : List Tile :=
  neededGoF F1 (F1 + 1 - F0).toNat F0

/-- Whether a tile is cached under the current parameters. -/
def isCached (st : WState) (fileId : String) (p : Params) (t : Tile) : Bool :=
  (assocFind (tileKey fileId t.startFrame t.frames p) st.cache).isSome

/-- The missing-segment accumulation loop of `analyzeTiles`: the
accumulator holds `(segStart, segEnd)` when a run of missing tiles is
open (`segStart !== -1` in the source). -/
def missingGo (st : WState) (fileId : String) (p : Params) :
    Option (Int × Int) → List Tile → List Tile
  | acc, [] =>
    match acc with
    | none => []
    | some (s, e) => [⟨s, e - s + 1⟩]
  | acc, t :: rest =>
    if isCached st fileId p t then
      match acc with
      | none => missingGo st fileId p none rest
      | some (s, e) => ⟨s, e - s + 1⟩ :: missingGo st fileId p none rest
    else
      match acc with
      | none => missingGo st fileId p (some (t.startFrame, t.startFrame + t.frames - 1)) rest
      | some (s, e) =>
        if t.startFrame = e + 1 then
          missingGo st fileId p (some (s, t.startFrame + t.frames - 1)) rest
        else
          ⟨s, e - s + 1⟩ :: missingGo st fileId p (some (t.startFrame, t.startFrame + t.frames - 1)) rest

/-- The maximal contiguous runs of missing tiles for a needed-tile list
(source: second half of `analyzeTiles`). -/
def missingTiles (st : WState) (fileId : String) (p : Params) (needed : List Tile) : List Tile :=
  missingGo st fileId p none needed

/-- `startSample = Math.max(0, seg.startFrame*hop - pad)` with `pad = n_fft`. -/
def segStartSample (seg : Tile) (p : Params) : Int :=
  max 0 (seg.startFrame * p.hop_length - p.n_fft)

/-- `endSample = Math.min(pcm.length, (seg.startFrame+seg.frames)*hop + pad)`. -/
def segEndSample (len : Nat) (seg : Tile) (p : Params) : Int :=
  min (len : Int) ((seg.startFrame + seg.frames) * p.hop_length + p.n_fft)

/-- Index in the PCM buffer where the subarray actually starts (JS
`subarray` clamps both indices to the buffer bounds). -/
def sliceStartIdx (len : Nat) (seg : Tile) (p : Params) : Nat :=
  jsSliceIdx len (segStartSample seg p)

/-- Length of the PCM slice handed to the Spectral Primitive. -/
def segSliceLen (len : Nat) (seg : Tile) (p : Params) : Nat :=
  jsSliceIdx len (segEndSample len seg p) - sliceStartIdx len seg p

/-- `framesPerPad = Math.floor(pad / hop)` with `pad = n_fft`. -/
def framesPerPad (p : Params) : Int :=
  Int.floor ((p.n_fft : Rat) / (p.hop_length : Rat))

/-- Rows returned by the primitive for one segment slice, under the
shift-invariant primitive model: row `k` of a call on the subarray
starting at sample `a` is `melAt (a + k*hop)`, and `cnt` gives the row
count for the slice length. -/
def segMelFrames (melAt : Int → List Rat) (cnt : Nat → Nat)
    (len : Nat) (seg : Tile) (p : Params) : List (List Rat) :=
  (List.range (cnt (segSliceLen len seg p))).map
    (fun (k : Nat) => melAt ((sliceStartIdx len seg p : Int) + (k : Int) * p.hop_length))

/-- `usable = melFrames.slice(framesPerPad, framesPerPad + seg.frames)`. -/
def segUsable (melAt : Int → List Rat) (cnt : Nat → Nat)
    (len : Nat) (seg : Tile) (p : Params) : List (List Rat) :=
  jsSlice (segMelFrames melAt cnt len seg p) (framesPerPad p) (framesPerPad p + seg.frames)

/-- One output row written into a `frames × n_mels` Float32Array region:
`out.set(row, t*n_mels)` on a zero-initialised buffer, for rows of at
most `n_mels` entries (the primitive's rows have exactly `n_mels`). -/
def padTo (n : Nat) (r : List Rat) : List Rat :=
  r.take n ++ List.replicate (n - r.length) 0

/-- `flattenMel` from the source: flatten time-major rows into one buffer. -/
def flattenMel (rows : List (List Rat)) (n : Nat) : List Rat :=
  (rows.map (padTo n)).flatten

/-- The cache-populating loop at the end of `computeSegmentAndPopulateTiles`,
with fuel (`cursor` advances by at least one frame per iteration). -/
def storeTilesGo (fileId : String) (p : Params) (seg : Tile) (usable : List (List Rat)) :
    Nat → Int → List (TileKey × List Rat) → List (TileKey × List Rat)
  | 0, _, c => c
  | fuel + 1, cursor, c =>
    if cursor < seg.frames then
      let thisFrames := min TILE_FRAMES (seg.frames - cursor)
      let rows := jsSlice usable cursor (cursor + thisFrames)
      let key := tileKey fileId (seg.startFrame + cursor) thisFrames p
      storeTilesGo fileId p seg usable fuel (cursor + thisFrames) ((key, flattenMel rows p.n_mels) :: c)
    else c

/-- `computeSegmentAndPopulateTiles` from the source: look up the PCM
(throwing `PCM not loaded for fileId` if absent), slice it with `n_fft`
samples of padding clamped to the buffer, run the primitive once,
discard `framesPerPad` leading rows, and store `TILE_FRAMES`-wide chunks. -/
def computeSegment (melAt : Int → List Rat) (cnt : Nat → Nat)
    (st : WState) (fileId : String) (seg : Tile) (p : Params) : Except String WState :=
  match assocFind fileId st.pcmStore with
  | none => .error "PCM not loaded for fileId"
  | some entry =>
    let usable := segUsable melAt cnt entry.len seg p
    .ok { st with cache := storeTilesGo fileId p seg usable seg.frames.toNat 0 st.cache }

/-- The `for (const seg of missing)` loop of `assembleWindowMel`: fill
segments in order; a thrown error aborts the loop but the cache entries
already written by earlier segments stay committed.  The third component
counts the `mel_spectrogram_db` invocations made: exactly one per
segment that passes the PCM lookup (the lookup precedes the call inside
`computeSegmentAndPopulateTiles`, so an aborting segment contributes
none). -/
def fillSegments (melAt : Int → List Rat) (cnt : Nat → Nat) (fileId : String) (p : Params) :
    WState → List Tile → WState × Option String × Nat
  | st, [] => (st, none, 0)
  | st, seg :: rest =>
    match computeSegment melAt cnt st fileId seg p with
    | .error e => (st, some e, 0)
    | .ok st' =>
      let r := fillSegments melAt cnt fileId p st' rest
      (r.1, r.2.1, r.2.2 + 1)

/-- Fetch every needed tile from the cache (`needed.map(t => cache.get(key)!)`);
`none` models the TypeError thrown when a tile is unexpectedly absent. -/
def collectTiles (st : WState) (fileId : String) (p : Params) : List Tile → Option (List (List Rat))
  | [] => some []
  | t :: rest =>
    match assocFind (tileKey fileId t.startFrame t.frames p) st.cache with
    | none => none
    | some v =>
      match collectTiles st fileId p rest with
      | none => none
      | some vs => some (v :: vs)

/-- `assembleWindowMel` from the source: frame range, needed and missing
tiles, fill the missing segments, concatenate all tiles, return the
flattened buffer plus `F1 - F0 + 1` frames.  The state is returned in
all cases because cache mutation survives a thrown error. -/
def assembleWindowMel (melAt : Int → List Rat) (cnt : Nat → Nat)
    (st : WState) (fileId : String) (p : Params) :
    WState × Except String (List Rat × Int) :=
  let F0 := (framesForWindow p).1
  let F1 := (framesForWindow p).2
  let needed := neededTiles F0 F1
  let missing := missingTiles st fileId p needed
  let filled := fillSegments melAt cnt fileId p st missing
  (filled.1,
    match filled.2.1 with
    | some e => .error e
    | none =>
      match collectTiles filled.1 fileId p needed with
      | none => .error "tile lookup failed"
      | some bufs => .ok (bufs.flatten, F1 - F0 + 1))

/-- Number of `mel_spectrogram_db` invocations performed by one render. -/
def renderPrimCalls (melAt : Int → List Rat) (cnt : Nat → Nat)
    (st : WState) (fileId : String) (p : Params) : Nat :=
  let F0 := (framesForWindow p).1
  let F1 := (framesForWindow p).2
  (fillSegments melAt cnt fileId p st (missingTiles st fileId p (neededTiles F0 F1))).2.2

/-- A reply posted by the worker for one `render` message: a full image
(width, height, and the assembled mel buffer the pixels are derived
from), the degenerate 1×1 placeholder of the empty-result guard, or an
`error` message. -/
inductive Reply
  | image (width height : Int) (mel : List Rat)
  | placeholder
  | error (msg : String)
deriving DecidableEq

/-- The `render` branch of `self.onmessage` up to rasterization: assemble
the window, then the empty-result guard `if (!mel || frames <= 0)` (the
`!mel` disjunct can never fire: `concatTiles` always returns a real,
possibly empty, Float32Array, which is truthy), else an image of
`width = frames`, `height = n_mels`.  A thrown error is caught and posted
as an `error` reply; cache writes made before the throw stay committed. -/
def renderReply (melAt : Int → List Rat) (cnt : Nat → Nat)
    (st : WState) (fileId : String) (p : Params) : WState × Reply :=
  let res := assembleWindowMel melAt cnt st fileId p
  (res.1,
    match res.2 with
    | .error e => .error e
    | .ok (mel, frames) =>
      if frames ≤ 0 then .placeholder
      else .image frames p.n_mels mel)

/-- The `set_pcm` branch of `self.onmessage`:
`pcmStore.set(msg.fileId, { sampleRate, pcm })`. -/
def applySetPcm (st : WState) (fileId : String) (sr : Int) (len : Nat) : WState :=
  { st with pcmStore := (fileId, ⟨sr, len⟩) :: st.pcmStore }

/-- Worker states reachable from the initial state (both maps empty) by
any sequence of `set_pcm` and `render` messages; each render may observe
any primitive behaviour (`melAt`, `cnt`), which covers PCM redelivery
with different sample content. -/
inductive Reachable : WState → Prop
  | init : Reachable ⟨[], []⟩
  | set_pcm {st : WState} (fileId : String) (sr : Int) (len : Nat) :
      Reachable st → Reachable (applySetPcm st fileId sr len)
  | render {st : WState} (melAt : Int → List Rat) (cnt : Nat → Nat)
      (fileId : String) (p : Params) :
      Reachable st → Reachable (renderReply melAt cnt st fileId p).1

/-- Modelled from the spec (section 8, cache correctness): the reference
buffer for a window is obtained by calling the Spectral Primitive once
over the full un-tiled frame range — the PCM slice for `[F0, F1]`
extended by `n_fft` samples on both sides, clamped to the buffer — and
discarding the same `floor(n_fft/hop_length)` leading padding frames
before keeping `totalFrames` rows, flattened time-major. -/
def refWindowBuffer (melAt : Int → List Rat) (cnt : Nat → Nat)
    (len : Nat) (p : Params) : List Rat :=
  let F0 := Int.floor (p.t0 * fps p)
  let total := max 1 (Int.floor (p.windowDuration * fps p))
  let a := max 0 (F0 * p.hop_length - p.n_fft)
  let b := min (len : Int) ((F0 + total) * p.hop_length + p.n_fft)
  let a' := jsSliceIdx len a
  let b' := jsSliceIdx len b
  let rows := (List.range (cnt (b' - a'))).map
    (fun (k : Nat) => melAt ((a' : Int) + (k : Int) * p.hop_length))
  let fpp := Int.floor ((p.n_fft : Rat) / (p.hop_length : Rat))
  flattenMel (jsSlice rows fpp (fpp + total)) p.n_mels

/-! ### Display mapper

The rasterize loop (source lines 261-277) runs on floats and the spec
exercises it on NaN and infinite inputs, so its value domain is modelled
explicitly: `FVal` is a rational extended with the three special float
values, with JS semantics for the operations the loop performs.
`Math.pow` is kept as an opaque parameter (its result on a rational base
and exponent is generally irrational). -/

/-- A JS number: finite (exact rational in the model), ±Infinity, or NaN. -/
inductive FVal
  | fin (q : Rat)
  | pinf
  | ninf
  | nan
deriving DecidableEq

namespace FVal

/-- JS float negation. -/
def fneg : FVal → FVal
  | fin q => fin (-q)
  | pinf => ninf
  | ninf => pinf
  | nan => nan

/-- JS float addition. -/
def fadd : FVal → FVal → FVal
  | nan, _ => nan
  | _, nan => nan
  | pinf, ninf => nan
  | ninf, pinf => nan
  | pinf, _ => pinf
  | _, pinf => pinf
  | ninf, _ => ninf
  | _, ninf => ninf
  | fin a, fin b => fin (a + b)

/-- JS float subtraction. -/
def fsub (a b : FVal) : FVal := fadd a (fneg b)

/-- JS float multiplication (`Infinity * 0` is NaN). -/
def fmul : FVal → FVal → FVal
  | nan, _ => nan
  | _, nan => nan
  | pinf, pinf => pinf
  | pinf, ninf => ninf
  | ninf, pinf => ninf
  | ninf, ninf => pinf
  | pinf, fin b => if b = 0 then nan else if 0 < b then pinf else ninf
  | ninf, fin b => if b = 0 then nan else if 0 < b then ninf else pinf
  | fin a, pinf => if a = 0 then nan else if 0 < a then pinf else ninf
  | fin a, ninf => if a = 0 then nan else if 0 < a then ninf else pinf
  | fin a, fin b => fin (a * b)

/-- JS float division (`0/0` and `Infinity/Infinity` are NaN, a nonzero
finite value over zero is a signed infinity, a finite value over an
infinity is zero; the model has no signed zero). -/
def fdiv : FVal → FVal → FVal
  | nan, _ => nan
  | _, nan => nan
  | pinf, pinf => nan
  | pinf, ninf => nan
  | ninf, pinf => nan
  | ninf, ninf => nan
  | pinf, fin b => if 0 ≤ b then pinf else ninf
  | ninf, fin b => if 0 ≤ b then ninf else pinf
  | fin _, pinf => fin 0
  | fin _, ninf => fin 0
  | fin a, fin b =>
    if b = 0 then (if a = 0 then nan else if 0 < a then pinf else ninf)
    else fin (a / b)

/-- JS `isFinite`. -/
def isFiniteF : FVal → Bool
  | fin _ => true
  | _ => false

/-- `Math.max(0, Math.min(1, x))` (Math.min/Math.max propagate NaN). -/
def fclamp01 : FVal → FVal
  | fin q => fin (max 0 (min 1 q))
  | pinf => fin 1
  | ninf => fin 0
  | nan => nan

/-- JS `x | 0` (ToInt32) for values in the ranges the loop produces:
truncation toward zero for finite values, 0 for NaN and ±Infinity (the
2^32 wrap-around is never reached from a value clamped to [0,1]·255). -/
def jsOr0 : FVal → Int
  | fin q => if 0 ≤ q then Int.floor q else -(Int.floor (-q))
  | _ => 0

end FVal

/-- `normalizedValue` of the rasterize loop: `(v - smin)/(smax - smin)`,
replaced by 0 when not finite, then `Math.max(0, Math.min(1, ·))`. -/
def normClamped (v smin smax : FVal) : Rat :=
  match FVal.fdiv (FVal.fsub v smin) (FVal.fsub smax smin) with
  | FVal.fin q => max 0 (min 1 q)
  | _ => 0

/-- `clampedValue` of the rasterize loop:
`Math.max(0, Math.min(1, (Math.pow(norm, gamma) - 0.5) * contrast + 0.5 + brightness))`,
with `Math.pow` abstracted by the parameter `pw`. -/
def clampedValue (pw : Rat → Rat → FVal) (v smin smax : FVal)
    (gamma contrast brightness : Rat) : FVal :=
  let g := pw (normClamped v smin smax) gamma
  FVal.fclamp01
    (FVal.fadd
      (FVal.fadd (FVal.fmul (FVal.fsub g (FVal.fin (1/2))) (FVal.fin contrast)) (FVal.fin (1/2)))
      (FVal.fin brightness))

/-- `num = (clampedValue * 255) | 0`, the colormap index of one pixel. -/
def colorIndex (pw : Rat → Rat → FVal) (v smin smax : FVal)
    (gamma contrast brightness : Rat) : Int :=
  FVal.jsOr0 (FVal.fmul (clampedValue pw v smin smax gamma contrast brightness) (FVal.fin 255))

/-- `Math.round`: round half toward positive infinity. -/
def jsRound (q : Rat) : Int := Int.floor (q + 1/2)

/-- One linear-interpolation channel of `buildViridisLUT`:
`Math.round(lo * (1 - localT) + hi * localT)`. -/
def lutLerp (lo hi localT : Rat) : Int := jsRound (lo * (1 - localT) + hi * localT)

/-- `buildViridisLUT` from the source: the RGBA quadruple at index `i`
(each channel finally clamped by `Math.max(0, Math.min(255, ·))`, alpha
fixed at 255). -/
def viridisLUT (i : Nat) : Int × Int × Int × Int :=
  let t : Rat := (i : Rat) / 255
  let rgb : Int × Int × Int :=
    if t < 1/4 then
      let lt := t / (1/4)
      (lutLerp 68 59 lt, lutLerp 1 82 lt, lutLerp 84 139 lt)
    else if t < 1/2 then
      let lt := (t - 1/4) / (1/4)
      (lutLerp 59 53 lt, lutLerp 82 183 lt, lutLerp 139 121 lt)
    else if t < 3/4 then
      let lt := (t - 1/2) / (1/4)
      (lutLerp 53 253 lt, lutLerp 183 231 lt, lutLerp 121 37 lt)
    else
      let lt := (t - 3/4) / (1/4)
      (lutLerp 253 254 lt, lutLerp 231 240 lt, lutLerp 37 36 lt)
  (max 0 (min 255 rgb.1), max 0 (min 255 rgb.2.1), max 0 (min 255 rgb.2.2), 255)

/-- Modelled from the spec (section 4.4, per-sample mapping):
`norm = clamp((v - smin)/(smax - smin), 0, 1)`; `g = norm ^ gamma`
(the same opaque power function); `adjusted = clamp((g - 0.5)*contrast + 0.5 + brightness, 0, 1)`;
`index = round(adjusted * 255)`. -/
def specMapIndex (pw : Rat → Rat → FVal) (v smin smax gamma contrast brightness : Rat) : Int :=
  let norm := max 0 (min 1 ((v - smin) / (smax - smin)))
  match pw norm gamma with
  | FVal.fin g => jsRound ((max 0 (min 1 ((g - 1/2) * contrast + 1/2 + brightness))) * 255)
  | _ => 0

/-! ### Structural lemmas about the needed-tile partition -/

/-- A tile list is chained from `c` when the tiles are consecutive
(each tile starts where the previous one ended) and at least one frame
wide. -/
def ChainedFrom : Int → List Tile → Prop
  | _, [] => True
  | c, t :: rest => t.startFrame = c ∧ 1 ≤ t.frames ∧ ChainedFrom (c + t.frames) rest

/-- Total frame count of a tile list. -/
def tilesFrames (l : List Tile) : Int := (l.map Tile.frames).sum

theorem tilesFrames_nil : tilesFrames [] = 0 := rfl

theorem tilesFrames_cons (t : Tile) (l : List Tile) :
    tilesFrames (t :: l) = t.frames + tilesFrames l := by
  simp [tilesFrames]

theorem neededGoF_chained (F1 : Int) :
    ∀ (fuel : Nat) (c : Int), ChainedFrom c (neededGoF F1 fuel c) := by
  intro fuel
  induction fuel with
  | zero => intro c; simp [neededGoF, ChainedFrom]
  | succ n ih =>
    intro c
    by_cases h : c ≤ F1
    · simp only [neededGoF, if_pos h]
      exact ⟨rfl, by simp only [TILE_FRAMES, le_min_iff]; omega, ih _⟩
    · simp only [neededGoF, if_neg h]
      exact trivial

theorem neededGoF_sum (F1 : Int) :
    ∀ (fuel : Nat) (c : Int), (F1 + 1 - c).toNat ≤ fuel →
      tilesFrames (neededGoF F1 fuel c) = max 0 (F1 + 1 - c) := by
  intro fuel
  induction fuel with
  | zero =>
    intro c hc
    have : ¬ c ≤ F1 := by omega
    simp [neededGoF, tilesFrames]
    omega
  | succ n ih =>
    intro c hc
    by_cases h : c ≤ F1
    · simp only [neededGoF, if_pos h, tilesFrames_cons]
      have hw : (min TILE_FRAMES (F1 - c + 1)) ≥ 1 := by
        simp only [TILE_FRAMES, le_min_iff]; omega
      have hw2 : (min TILE_FRAMES (F1 - c + 1)) ≤ F1 - c + 1 := min_le_right _ _
      rw [ih (c + min TILE_FRAMES (F1 - c + 1)) (by omega)]
      omega
    · simp [neededGoF, if_neg h, tilesFrames]
      omega

theorem neededGoF_ne_nil (F1 : Int) (fuel : Nat) (c : Int)
    (hf : 1 ≤ fuel) (hc : c ≤ F1) : neededGoF F1 fuel c ≠ [] := by
  cases fuel with
  | zero => omega
  | succ n => simp [neededGoF, if_pos hc]

theorem neededGoF_nil_of_gt (F1 : Int) (fuel : Nat) (c : Int)
    (hc : ¬ c ≤ F1) : neededGoF F1 fuel c = [] := by
  cases fuel with
  | zero => rfl
  | succ n => simp [neededGoF, if_neg hc]

theorem neededGoF_widths (F1 : Int) :
    ∀ (fuel : Nat) (c : Int), ∀ t ∈ neededGoF F1 fuel c,
      t.startFrame ≤ F1 ∧ t.frames = min TILE_FRAMES (F1 - t.startFrame + 1) := by
  intro fuel
  induction fuel with
  | zero => intro c t ht; simp [neededGoF] at ht
  | succ n ih =>
    intro c t ht
    by_cases h : c ≤ F1
    · simp only [neededGoF, if_pos h, List.mem_cons] at ht
      rcases ht with rfl | ht
      · exact ⟨h, rfl⟩
      · exact ih _ t ht
    · simp [neededGoF, if_neg h] at ht

theorem neededGoF_head (F1 : Int) (fuel : Nat) (c : Int)
    (hf : 1 ≤ fuel) (hc : c ≤ F1) :
    ((neededGoF F1 fuel c).head?.map Tile.startFrame) = some c := by
  cases fuel with
  | zero => omega
  | succ n => simp [neededGoF, if_pos hc]

theorem neededGoF_full_widths (F1 : Int) :
    ∀ (fuel : Nat) (c : Int) (i : Nat) (t : Tile),
      i + 1 < (neededGoF F1 fuel c).length → (neededGoF F1 fuel c)[i]? = some t →
      t.frames = TILE_FRAMES := by
  intro fuel
  induction fuel with
  | zero => intro c i t h; simp [neededGoF] at h
  | succ n ih =>
    intro c i t hlen hget
    by_cases h : c ≤ F1
    · simp only [neededGoF, if_pos h] at hlen hget
      cases i with
      | zero =>
        simp only [List.getElem?_cons_zero, Option.some.injEq] at hget
        subst hget
        simp only [List.length_cons] at hlen
        have hrest : neededGoF F1 n (c + min TILE_FRAMES (F1 - c + 1)) ≠ [] := by
          intro hnil
          rw [hnil] at hlen
          simp at hlen
        have hc2 : c + min TILE_FRAMES (F1 - c + 1) ≤ F1 := by
          by_contra hgt
          exact hrest (neededGoF_nil_of_gt F1 n _ hgt)
        simp only [TILE_FRAMES] at *
        omega
      | succ j =>
        simp only [List.getElem?_cons_succ] at hget
        simp only [List.length_cons] at hlen
        exact ih _ j t (by omega) hget
    · simp [neededGoF, if_neg h] at hget

/-- Parameters of the worked example in the spec (section 8): 32000 Hz,
`hop_length = 256`, `t0 = 0`, `windowDuration = 8`. -/
def exampleParams : Params :=
  { sampleRate := 32000, n_fft := 1024, win_length := 1024, hop_length := 256,
    f_min := 0, f_max := 16000, n_mels := 64, top_db := 80,
    t0 := 0, windowDuration := 8, dynamicGain := false, autoGamma := false,
    gammaValue := 1, gainPercentile := 95, brightness := 0, contrast := 1 }

unseal Rat.mul Rat.add Rat.sub Rat.inv in
/-- C5: for every render request the frame range is
`F0 = floor(t0 * sampleRate/hop_length)`,
`totalFrames = max(1, floor(windowDuration * sampleRate/hop_length))`,
`F1 = F0 + totalFrames - 1`, and `[F0, F1]` is partitioned into
consecutive tiles starting at `F0`, each `TILE_FRAMES = 1024` wide except
possibly a shorter last tile; concretely, for 32000 Hz, hop 256, `t0 = 0`,
`windowDuration = 8` the partition is the single tile over frames 0-999. -/
theorem frame_range_partition :
    (∀ p : Params,
      (framesForWindow p).1 = Int.floor (p.t0 * ((p.sampleRate : Rat) / (p.hop_length : Rat))) ∧
      (framesForWindow p).2 = (framesForWindow p).1 +
        max 1 (Int.floor (p.windowDuration * ((p.sampleRate : Rat) / (p.hop_length : Rat)))) - 1 ∧
      ChainedFrom (framesForWindow p).1 (neededTiles (framesForWindow p).1 (framesForWindow p).2) ∧
      neededTiles (framesForWindow p).1 (framesForWindow p).2 ≠ [] ∧
      ((neededTiles (framesForWindow p).1 (framesForWindow p).2).head?.map Tile.startFrame)
        = some (framesForWindow p).1 ∧
      tilesFrames (neededTiles (framesForWindow p).1 (framesForWindow p).2)
        = (framesForWindow p).2 - (framesForWindow p).1 + 1 ∧
      (∀ t ∈ neededTiles (framesForWindow p).1 (framesForWindow p).2,
        1 ≤ t.frames ∧ t.frames ≤ TILE_FRAMES) ∧
      (∀ (i : Nat) (t : Tile),
        i + 1 < (neededTiles (framesForWindow p).1 (framesForWindow p).2).length →
        (neededTiles (framesForWindow p).1 (framesForWindow p).2)[i]? = some t →
        t.frames = TILE_FRAMES)) ∧
    framesForWindow exampleParams = (0, 999) ∧
    neededTiles 0 999 = [⟨0, 1000⟩] := by
  refine ⟨?_, by decide, by decide⟩
  intro p
  have h1 : (framesForWindow p).1
      = Int.floor (p.t0 * ((p.sampleRate : Rat) / (p.hop_length : Rat))) := rfl
  have h2 : (framesForWindow p).2 = (framesForWindow p).1 +
      max 1 (Int.floor (p.windowDuration * ((p.sampleRate : Rat) / (p.hop_length : Rat)))) - 1 := rfl
  have hT : 1 ≤ max 1 (Int.floor (p.windowDuration * ((p.sampleRate : Rat) / (p.hop_length : Rat)))) :=
    le_max_left _ _
  have hle : (framesForWindow p).1 ≤ (framesForWindow p).2 := by omega
  have hfuel : 1 ≤ ((framesForWindow p).2 + 1 - (framesForWindow p).1).toNat := by omega
  refine ⟨h1, h2, ?_, ?_, ?_, ?_, ?_, ?_⟩
  · exact neededGoF_chained _ _ _
  · exact neededGoF_ne_nil _ _ _ hfuel hle
  · exact neededGoF_head _ _ _ hfuel hle
  · rw [neededTiles, neededGoF_sum _ _ _ (le_refl _)]
    omega
  · intro t ht
    obtain ⟨hs, hw⟩ := neededGoF_widths _ _ _ t ht
    constructor
    · rw [hw]; simp only [TILE_FRAMES, le_min_iff]; omega
    · rw [hw]; exact min_le_left _ _
  · intro i t hlen hget
    exact neededGoF_full_widths _ _ _ i t hlen hget

/-! ### Association list and state-machine lemmas -/

theorem framesForWindow_fst (p : Params) :
    (framesForWindow p).1 = Int.floor (p.t0 * fps p) := rfl

theorem framesForWindow_snd (p : Params) :
    (framesForWindow p).2
      = (framesForWindow p).1 + max 1 (Int.floor (p.windowDuration * fps p)) - 1 := rfl

theorem framesForWindow_le (p : Params) : (framesForWindow p).1 ≤ (framesForWindow p).2 := by
  rw [framesForWindow_snd]
  have : 1 ≤ max 1 (Int.floor (p.windowDuration * fps p)) := le_max_left _ _
  omega

theorem framesForWindow_fuel (p : Params) :
    1 ≤ ((framesForWindow p).2 + 1 - (framesForWindow p).1).toNat := by
  have := framesForWindow_le p
  omega

theorem chainedFrom_cons {c : Int} {t : Tile} {rest : List Tile} :
    ChainedFrom c (t :: rest) ↔
      (t.startFrame = c ∧ 1 ≤ t.frames ∧ ChainedFrom (c + t.frames) rest) :=
  Iff.rfl

theorem assocFind_mem {κ α : Type} [DecidableEq κ] (k : κ) (v : α) :
    ∀ l : List (κ × α), assocFind k l = some v → (k, v) ∈ l := by
  intro l
  induction l with
  | nil => intro h; simp [assocFind] at h
  | cons kv rest ih =>
    intro h
    obtain ⟨k', v'⟩ := kv
    simp only [assocFind] at h
    by_cases hk : k = k'
    · rw [if_pos hk] at h
      cases h
      subst hk
      exact List.mem_cons_self _ _
    · rw [if_neg hk] at h
      exact List.mem_cons_of_mem _ (ih h)

theorem storeTilesGo_mem (fileId : String) (p : Params) (seg : Tile) (usable : List (List Rat)) :
    ∀ (fuel : Nat) (cursor : Int) (c : List (TileKey × List Rat)) (kv : TileKey × List Rat),
      kv ∈ storeTilesGo fileId p seg usable fuel cursor c → kv ∈ c ∨ kv.1.fileId = fileId := by
  intro fuel
  induction fuel with
  | zero => intro cursor c kv h; exact Or.inl h
  | succ n ih =>
    intro cursor c kv h
    by_cases hc : cursor < seg.frames
    · simp only [storeTilesGo, if_pos hc] at h
      rcases ih _ _ _ h with h' | h'
      · rcases List.mem_cons.mp h' with h'' | h''
        · right; rw [h'']
          rfl
        · exact Or.inl h''
      · exact Or.inr h'
    · simp only [storeTilesGo, if_neg hc] at h
      exact Or.inl h

theorem computeSegment_pcmStore (melAt : Int → List Rat) (cnt : Nat → Nat)
    (st : WState) (fileId : String) (seg : Tile) (p : Params) (st' : WState) :
    computeSegment melAt cnt st fileId seg p = .ok st' → st'.pcmStore = st.pcmStore := by
  intro h
  unfold computeSegment at h
  cases hfind : assocFind fileId st.pcmStore with
  | none => rw [hfind] at h; cases h
  | some entry => rw [hfind] at h; cases h; rfl

theorem computeSegment_cache_mem (melAt : Int → List Rat) (cnt : Nat → Nat)
    (st : WState) (fileId : String) (seg : Tile) (p : Params) (st' : WState) :
    computeSegment melAt cnt st fileId seg p = .ok st' →
      (assocFind fileId st.pcmStore).isSome ∧
      ∀ kv ∈ st'.cache, kv ∈ st.cache ∨ kv.1.fileId = fileId := by
  intro h
  unfold computeSegment at h
  cases hfind : assocFind fileId st.pcmStore with
  | none => rw [hfind] at h; cases h
  | some entry =>
    rw [hfind] at h
    cases h
    exact ⟨by simp [hfind], fun kv hkv => storeTilesGo_mem _ _ _ _ _ _ _ _ hkv⟩

theorem computeSegment_error (melAt : Int → List Rat) (cnt : Nat → Nat)
    (st : WState) (fileId : String) (seg : Tile) (p : Params) (e : String) :
    computeSegment melAt cnt st fileId seg p = .error e → e = "PCM not loaded for fileId" := by
  intro h
  unfold computeSegment at h
  cases hfind : assocFind fileId st.pcmStore with
  | none => rw [hfind] at h; cases h; rfl
  | some entry => rw [hfind] at h; cases h

theorem fillSegments_pcmStore (melAt : Int → List Rat) (cnt : Nat → Nat)
    (fileId : String) (p : Params) :
    ∀ (missing : List Tile) (st : WState),
      (fillSegments melAt cnt fileId p st missing).1.pcmStore = st.pcmStore := by
  intro missing
  induction missing with
  | nil => intro st; rfl
  | cons seg rest ih =>
    intro st
    simp only [fillSegments]
    cases hcs : computeSegment melAt cnt st fileId seg p with
    | error e => rfl
    | ok st' =>
      simp only
      rw [ih st', computeSegment_pcmStore _ _ _ _ _ _ _ hcs]

theorem fillSegments_cache_mem (melAt : Int → List Rat) (cnt : Nat → Nat)
    (fileId : String) (p : Params) :
    ∀ (missing : List Tile) (st : WState) (kv : TileKey × List Rat),
      kv ∈ (fillSegments melAt cnt fileId p st missing).1.cache →
      kv ∈ st.cache ∨ (kv.1.fileId = fileId ∧ (assocFind fileId st.pcmStore).isSome) := by
  intro missing
  induction missing with
  | nil => intro st kv h; exact Or.inl h
  | cons seg rest ih =>
    intro st kv h
    simp only [fillSegments] at h
    cases hcs : computeSegment melAt cnt st fileId seg p with
    | error e => rw [hcs] at h; exact Or.inl h
    | ok st' =>
      rw [hcs] at h
      simp only at h
      have hpcm : (assocFind fileId st.pcmStore).isSome :=
        (computeSegment_cache_mem _ _ _ _ _ _ _ hcs).1
      have hpcm' : st'.pcmStore = st.pcmStore := computeSegment_pcmStore _ _ _ _ _ _ _ hcs
      rcases ih st' kv h with h' | h'
      · rcases (computeSegment_cache_mem _ _ _ _ _ _ _ hcs).2 kv h' with h'' | h''
        · exact Or.inl h''
        · exact Or.inr ⟨h'', hpcm⟩
      · exact Or.inr ⟨h'.1, hpcm⟩

theorem fillSegments_error (melAt : Int → List Rat) (cnt : Nat → Nat)
    (fileId : String) (p : Params) :
    ∀ (missing : List Tile) (st : WState) (e : String),
      (fillSegments melAt cnt fileId p st missing).2.1 = some e →
      e = "PCM not loaded for fileId" := by
  intro missing
  induction missing with
  | nil => intro st e h; simp [fillSegments] at h
  | cons seg rest ih =>
    intro st e h
    simp only [fillSegments] at h
    cases hcs : computeSegment melAt cnt st fileId seg p with
    | error e' =>
      rw [hcs] at h
      simp only [Option.some.injEq] at h
      subst h
      exact computeSegment_error _ _ _ _ _ _ _ hcs
    | ok st' =>
      rw [hcs] at h
      simp only at h
      exact ih st' e h

theorem fillSegments_count (melAt : Int → List Rat) (cnt : Nat → Nat)
    (fileId : String) (p : Params) :
    ∀ (missing : List Tile) (st : WState),
      (assocFind fileId st.pcmStore).isSome →
      (fillSegments melAt cnt fileId p st missing).2.2 = missing.length := by
  intro missing
  induction missing with
  | nil => intro st _; rfl
  | cons seg rest ih =>
    intro st hpcm
    simp only [fillSegments]
    cases hcs : computeSegment melAt cnt st fileId seg p with
    | error e =>
      exfalso
      unfold computeSegment at hcs
      cases hfind : assocFind fileId st.pcmStore with
      | none => rw [hfind] at hpcm; simp at hpcm
      | some entry => rw [hfind] at hcs; cases hcs
    | ok st' =>
      simp only [List.length_cons]
      have hpcm' : (assocFind fileId st'.pcmStore).isSome := by
        rw [computeSegment_pcmStore _ _ _ _ _ _ _ hcs]; exact hpcm
      rw [ih st' hpcm']

theorem assembleWindowMel_fst (melAt : Int → List Rat) (cnt : Nat → Nat)
    (st : WState) (fileId : String) (p : Params) :
    (assembleWindowMel melAt cnt st fileId p).1 =
      (fillSegments melAt cnt fileId p st
        (missingTiles st fileId p
          (neededTiles (framesForWindow p).1 (framesForWindow p).2))).1 := rfl

theorem renderReply_fst (melAt : Int → List Rat) (cnt : Nat → Nat)
    (st : WState) (fileId : String) (p : Params) :
    (renderReply melAt cnt st fileId p).1 = (assembleWindowMel melAt cnt st fileId p).1 := rfl

/-! ### Missing-segment lemmas -/

theorem missingGo_acc_allMissing (st : WState) (fileId : String) (p : Params) :
    ∀ (needed : List Tile) (c s : Int),
      ChainedFrom c needed →
      (∀ t ∈ needed, isCached st fileId p t = false) →
      missingGo st fileId p (some (s, c - 1)) needed = [⟨s, c + tilesFrames needed - s⟩] := by
  intro needed
  induction needed with
  | nil =>
    intro c s _ _
    show [Tile.mk s (c - 1 - s + 1)] = [Tile.mk s (c + tilesFrames [] - s)]
    refine congrArg (fun x => [Tile.mk s x]) ?_
    rw [tilesFrames_nil]
    omega
  | cons t rest ih =>
    intro c s hch hmiss
    obtain ⟨hstart, hw, hch'⟩ := chainedFrom_cons.mp hch
    have hm := hmiss t (List.mem_cons_self _ _)
    simp only [missingGo, hm, Bool.false_eq_true, if_false]
    have he : t.startFrame = (c - 1) + 1 := by omega
    rw [if_pos he]
    have : t.startFrame + t.frames - 1 = (c + t.frames) - 1 := by omega
    rw [this, ih (c + t.frames) s hch' (fun u hu => hmiss u (List.mem_cons_of_mem _ hu))]
    refine congrArg (fun x => [Tile.mk s x]) ?_
    rw [tilesFrames_cons]
    omega

theorem missingTiles_allMissing (st : WState) (fileId : String) (p : Params)
    (needed : List Tile) (c : Int)
    (hch : ChainedFrom c needed)
    (hmiss : ∀ t ∈ needed, isCached st fileId p t = false) :
    ∀ t rest, needed = t :: rest →
    missingTiles st fileId p needed = [⟨c, tilesFrames needed⟩] := by
  intro t rest hn
  subst hn
  obtain ⟨hstart, hw, hch'⟩ := chainedFrom_cons.mp hch
  have hm := hmiss t (List.mem_cons_self _ _)
  unfold missingTiles
  simp only [missingGo, hm, Bool.false_eq_true, if_false]
  have : t.startFrame + t.frames - 1 = (c + t.frames) - 1 := by omega
  rw [this, missingGo_acc_allMissing st fileId p rest (c + t.frames) t.startFrame hch'
    (fun u hu => hmiss u (List.mem_cons_of_mem _ hu))]
  subst hstart
  refine congrArg (fun x => [Tile.mk t.startFrame x]) ?_
  rw [tilesFrames_cons]
  omega

/-- Number of maximal runs of `false` (missing) entries in a cached-flag
list; the flag argument records whether a run is currently open. -/
def runsFrom : Bool → List Bool → Nat
  | inRun, [] => if inRun then 1 else 0
  | inRun, b :: rest =>
    if b then (if inRun then 1 else 0) + runsFrom false rest
    else runsFrom true rest

theorem missingGo_length_runs (st : WState) (fileId : String) (p : Params) :
    ∀ (needed : List Tile) (c : Int),
      ChainedFrom c needed →
      ((missingGo st fileId p none needed).length
          = runsFrom false (needed.map (isCached st fileId p)) ∧
       ∀ s, (missingGo st fileId p (some (s, c - 1)) needed).length
          = runsFrom true (needed.map (isCached st fileId p))) := by
  intro needed
  induction needed with
  | nil =>
    intro c _
    constructor
    · rfl
    · intro s; rfl
  | cons t rest ih =>
    intro c hch
    obtain ⟨hstart, hw, hch'⟩ := chainedFrom_cons.mp hch
    obtain ⟨ihnone, ihsome⟩ := ih (c + t.frames) hch'
    by_cases hc : isCached st fileId p t
    · constructor
      · simp only [missingGo, hc, if_true, List.map_cons, runsFrom, Bool.false_eq_true, if_false]
        rw [ihnone]
        omega
      · intro s
        simp only [missingGo, hc, if_true, List.map_cons, runsFrom, if_true, List.length_cons,
          Bool.false_eq_true, if_false]
        rw [ihnone]
        omega
    · have hcf : isCached st fileId p t = false := by simpa using hc
      constructor
      · simp only [missingGo, hcf, Bool.false_eq_true, if_false, List.map_cons, runsFrom]
        have : t.startFrame + t.frames - 1 = (c + t.frames) - 1 := by omega
        rw [this]
        exact ihsome t.startFrame
      · intro s
        simp only [missingGo, hcf, Bool.false_eq_true, if_false, List.map_cons, runsFrom]
        have he : t.startFrame = (c - 1) + 1 := by omega
        rw [if_pos he]
        have : t.startFrame + t.frames - 1 = (c + t.frames) - 1 := by omega
        rw [this]
        exact ihsome s

/-! ### Unfolding lemmas for the render branch -/

theorem assembleWindowMel_snd (melAt : Int → List Rat) (cnt : Nat → Nat)
    (st : WState) (fileId : String) (p : Params) :
    (assembleWindowMel melAt cnt st fileId p).2 =
      (match (fillSegments melAt cnt fileId p st
          (missingTiles st fileId p (neededTiles (framesForWindow p).1 (framesForWindow p).2))).2.1 with
       | some e => Except.error e
       | none =>
         match collectTiles
             (fillSegments melAt cnt fileId p st
               (missingTiles st fileId p (neededTiles (framesForWindow p).1 (framesForWindow p).2))).1
             fileId p (neededTiles (framesForWindow p).1 (framesForWindow p).2) with
         | none => Except.error "tile lookup failed"
         | some bufs => Except.ok (bufs.flatten, (framesForWindow p).2 - (framesForWindow p).1 + 1)) := rfl

theorem renderReply_snd (melAt : Int → List Rat) (cnt : Nat → Nat)
    (st : WState) (fileId : String) (p : Params) :
    (renderReply melAt cnt st fileId p).2 =
      (match (assembleWindowMel melAt cnt st fileId p).2 with
       | .error e => Reply.error e
       | .ok (mel, frames) =>
         if frames ≤ 0 then Reply.placeholder else Reply.image frames p.n_mels mel) := rfl

theorem assembleWindowMel_error (melAt : Int → List Rat) (cnt : Nat → Nat)
    (st : WState) (fileId : String) (p : Params) (e : String)
    (h : (assembleWindowMel melAt cnt st fileId p).2 = Except.error e) :
    e = "PCM not loaded for fileId" ∨ e = "tile lookup failed" := by
  rw [assembleWindowMel_snd] at h
  split at h
  · next e' heq =>
    cases h
    exact Or.inl (fillSegments_error _ _ _ _ _ _ _ heq)
  · next heq =>
    split at h
    · cases h
      exact Or.inr rfl
    · cases h

/-! ### Concrete primitive instances and inputs used by the closed runs

The primitive is an external collaborator; its row count for an input of
`L` samples is instantiated at concrete inputs with the standard
uncentered STFT count `max 0 ((L - n_fft)/hop + 1)` for the example
parameters (`n_fft = 1024`, `hop = 256`); any physically possible
primitive returns no rows for an empty slice, which is all the closed
runs below depend on. -/

/-- Concrete frame-count instance for the opaque `cnt` parameter. -/
def cntStd : Nat → Nat := fun L => ((((L : Int)) - 1024) / 256 + 1).toNat

/-- Concrete all-zero row instance for the opaque `melAt` parameter. -/
def melAtZero : Int → List Rat := fun _ => List.replicate 64 0

/-- Loaded PCM of one second at 32000 Hz for file `f`, empty tile cache. -/
def oneSecondState : WState := ⟨[("f", ⟨32000, 32000⟩)], []⟩

/-- The render request of the example, but starting at `t0 = 100` s —
far past the end of the one-second audio. -/
def pastEndParams : Params := { exampleParams with t0 := 100 }

unseal Rat.mul Rat.add Rat.sub Rat.inv in
/-- C2 (failing run): a render whose window lies entirely past the end of
the loaded audio does not produce the 1×1 placeholder: `totalFrames` is
`max(1, ...) = 1000 > 0` and the assembled `mel` is a real (empty)
buffer, so the guard `if (!mel || frames <= 0)` cannot fire and the
worker goes on to rasterize a full-size 1000×64 image from an empty
buffer, against both the spec and the guard's own comment. -/
theorem past_end_render_not_placeholder :
    (renderReply melAtZero cntStd oneSecondState "f" pastEndParams).2
      = Reply.image 1000 64 [] := by decide

/-- Loaded PCM of one second at 32000 Hz for file `g`, empty tile cache. -/
def oneSecondStateG : WState := ⟨[("g", ⟨32000, 32000⟩)], []⟩

/-- The render request of the example, but starting at `t0 = 50` s,
past the end of the one-second audio. -/
def pastHalfParams : Params := { exampleParams with t0 := 50 }

unseal Rat.mul Rat.add Rat.sub Rat.inv in
/-- C3 counterexample: for a window extending past the end of the PCM the
primitive returns no rows, so the tile stored under a key declaring 1000
frames holds 0 ≠ 1000·n_mels values, and the assembled buffer is empty
rather than totalFrames·n_mels long. -/
theorem tile_short_past_end :
    (∃ v, assocFind (tileKey "g" 6250 1000 pastHalfParams)
        (assembleWindowMel melAtZero cntStd oneSecondStateG "g" pastHalfParams).1.cache = some v ∧
        v.length ≠ 1000 * pastHalfParams.n_mels) ∧
    (∃ buf total, (assembleWindowMel melAtZero cntStd oneSecondStateG "g" pastHalfParams).2
        = Except.ok (buf, total) ∧ total = 1000 ∧ buf.length ≠ 1000 * pastHalfParams.n_mels) :=
  ⟨⟨[], by decide, by decide⟩, ⟨[], 1000, by rfl, by decide, by decide⟩⟩

/-- Loaded PCM of one second at 32000 Hz for file `h`, empty tile cache. -/
def oneSecondStateH : WState := ⟨[("h", ⟨32000, 32000⟩)], []⟩

/-- The render request of the example with an invalid (negative)
`hop_length`. -/
def invalidHopParams : Params := { exampleParams with hop_length := -256 }

unseal Rat.mul Rat.add Rat.sub Rat.inv in
/-- C7 counterexample: a render with the non-positive `hop_length = -256`
is not rejected: the worker proceeds to invoke `mel_spectrogram_db`
(exactly once here) with the invalid parameters instead of failing with
an InvalidParams error. -/
theorem invalid_hop_reaches_primitive :
    renderPrimCalls melAtZero cntStd oneSecondStateH "h" invalidHopParams = 1 := by decide

/-- C7 (amended): the worker performs no parameter validation: every
error reply is either the NotLoaded message or the internal tile-lookup
failure — no InvalidParams error exists — and with PCM loaded the
Spectral Primitive is invoked once per missing segment regardless of
parameter validity (so invalid parameters flow into the primitive; any
failure it raises is surfaced verbatim by the catch-all). -/
theorem no_invalid_params_validation :
    (∀ (melAt : Int → List Rat) (cnt : Nat → Nat) (st : WState) (fileId : String)
        (p : Params) (e : String),
      (renderReply melAt cnt st fileId p).2 = Reply.error e →
      e = "PCM not loaded for fileId" ∨ e = "tile lookup failed") ∧
    (∀ (melAt : Int → List Rat) (cnt : Nat → Nat) (st : WState) (fileId : String) (p : Params),
      (assocFind fileId st.pcmStore).isSome →
      renderPrimCalls melAt cnt st fileId p =
        (missingTiles st fileId p
          (neededTiles (framesForWindow p).1 (framesForWindow p).2)).length) := by
  constructor
  · intro melAt cnt st fileId p e h
    rw [renderReply_snd] at h
    split at h
    · next e' heq =>
      cases h
      exact assembleWindowMel_error _ _ _ _ _ _ heq
    · next mel frames _ =>
      split at h <;> cases h
  · intro melAt cnt st fileId p hpcm
    exact fillSegments_count melAt cnt fileId p _ st hpcm

unseal Rat.mul Rat.add Rat.sub Rat.inv in
/-- Witness for C7's amended theorem at concrete inputs. -/
theorem no_invalid_params_validation_witness :
    ((assocFind "h" oneSecondStateH.pcmStore).isSome = true) ∧
    renderPrimCalls melAtZero cntStd oneSecondStateH "h" invalidHopParams
      = (missingTiles oneSecondStateH "h" invalidHopParams
          (neededTiles (framesForWindow invalidHopParams).1 (framesForWindow invalidHopParams).2)).length ∧
    ((renderReply melAtZero cntStd ⟨[], []⟩ "w" exampleParams).2
        = Reply.error "PCM not loaded for fileId") ∧
    ("PCM not loaded for fileId" = "PCM not loaded for fileId"
      ∨ "PCM not loaded for fileId" = "tile lookup failed") :=
  ⟨by decide,
   no_invalid_params_validation.2 melAtZero cntStd oneSecondStateH "h" invalidHopParams (by decide),
   by decide,
   no_invalid_params_validation.1 melAtZero cntStd ⟨[], []⟩ "w" exampleParams _ (by decide)⟩

/-! ### Reachability invariant and the NotLoaded failure -/

/-- Every cached tile belongs to a file whose PCM is loaded. -/
def StoreInv (st : WState) : Prop :=
  ∀ kv ∈ st.cache, (assocFind kv.1.fileId st.pcmStore).isSome

theorem reachable_storeInv {st : WState} (h : Reachable st) : StoreInv st := by
  induction h with
  | init => intro kv hkv; simp at hkv
  | @set_pcm st fileId sr len _ ih =>
    intro kv hkv
    have hold := ih kv hkv
    show (assocFind kv.1.fileId ((fileId, ⟨sr, len⟩) :: st.pcmStore)).isSome
    by_cases hf : kv.1.fileId = fileId
    · simp [assocFind, hf]
    · simp only [assocFind, if_neg hf]
      exact hold
  | @render st melAt cnt fileId p _ ih =>
    intro kv hkv
    rw [renderReply_fst, assembleWindowMel_fst] at hkv
    rw [renderReply_fst, assembleWindowMel_fst, fillSegments_pcmStore]
    rcases fillSegments_cache_mem melAt cnt fileId p _ _ kv hkv with hold | ⟨hfid, hload⟩
    · exact ih kv hold
    · rw [hfid]
      exact hload

/-- C8: a render naming a fileId whose PCM was never delivered fails with
the NotLoaded error reply — one error message, no image — in every
reachable worker state, whatever tiles the cache holds (reachability
guarantees no tile of that fileId can be cached, so the first missing
segment's PCM lookup throws before anything else happens; the state is
left unchanged). -/
theorem render_unloaded_fails_not_loaded (melAt : Int → List Rat) (cnt : Nat → Nat)
    (st : WState) (fileId : String) (p : Params)
    (hr : Reachable st) (hnone : assocFind fileId st.pcmStore = none) :
    (renderReply melAt cnt st fileId p).2 = Reply.error "PCM not loaded for fileId" ∧
    (renderReply melAt cnt st fileId p).1 = st := by
  have hinv := reachable_storeInv hr
  have hmiss : ∀ t ∈ neededTiles (framesForWindow p).1 (framesForWindow p).2,
      isCached st fileId p t = false := by
    intro t _
    unfold isCached
    cases hfind : assocFind (tileKey fileId t.startFrame t.frames p) st.cache with
    | none => rfl
    | some v =>
      exfalso
      have hmem := assocFind_mem _ _ _ hfind
      have hl := hinv _ hmem
      have : (tileKey fileId t.startFrame t.frames p, v).1.fileId = fileId := rfl
      rw [this, hnone] at hl
      simp at hl
  have hne : neededTiles (framesForWindow p).1 (framesForWindow p).2 ≠ [] :=
    neededGoF_ne_nil _ _ _ (framesForWindow_fuel p) (framesForWindow_le p)
  obtain ⟨t, rest, hn⟩ : ∃ t rest,
      neededTiles (framesForWindow p).1 (framesForWindow p).2 = t :: rest := by
    cases h : neededTiles (framesForWindow p).1 (framesForWindow p).2 with
    | nil => exact absurd h hne
    | cons t rest => exact ⟨t, rest, rfl⟩
  have hmtiles : missingTiles st fileId p
        (neededTiles (framesForWindow p).1 (framesForWindow p).2)
      = [⟨(framesForWindow p).1,
          tilesFrames (neededTiles (framesForWindow p).1 (framesForWindow p).2)⟩] :=
    missingTiles_allMissing st fileId p _ _ (neededGoF_chained _ _ _) hmiss t rest hn
  have hfill : fillSegments melAt cnt fileId p st
      (missingTiles st fileId p (neededTiles (framesForWindow p).1 (framesForWindow p).2))
      = (st, some "PCM not loaded for fileId", 0) := by
    rw [hmtiles]
    simp only [fillSegments, computeSegment, hnone]
  constructor
  · rw [renderReply_snd, assembleWindowMel_snd, hfill]
  · rw [renderReply_fst, assembleWindowMel_fst, hfill]

unseal Rat.mul Rat.add Rat.sub Rat.inv in
/-- Witness for C8 at a concrete reachable state. -/
theorem render_unloaded_fails_witness :
    (assocFind "u" (⟨[], []⟩ : WState).pcmStore = none) ∧
    (renderReply melAtZero cntStd ⟨[], []⟩ "u" exampleParams).2
      = Reply.error "PCM not loaded for fileId" :=
  ⟨by decide,
   (render_unloaded_fails_not_loaded melAtZero cntStd ⟨[], []⟩ "u" exampleParams
      Reachable.init (by decide)).1⟩

/-- C10: `set_pcm` only touches the sample-store entry of its fileId —
the tile cache and every other entry are untouched — and a render whose
needed tiles are all cached never consults the primitive, so after PCM is
redelivered with different samples (a different primitive behaviour) such
a render still returns the spectral values of the cached tiles. -/
theorem set_pcm_frame_effect :
    (∀ (st : WState) (fileId : String) (sr : Int) (len : Nat),
      (applySetPcm st fileId sr len).cache = st.cache) ∧
    (∀ (st : WState) (fileId : String) (sr : Int) (len : Nat) (g : String), g ≠ fileId →
      assocFind g (applySetPcm st fileId sr len).pcmStore = assocFind g st.pcmStore) ∧
    (∀ (melAt melAt' : Int → List Rat) (cnt cnt' : Nat → Nat)
        (st : WState) (fileId : String) (p : Params),
      missingTiles st fileId p (neededTiles (framesForWindow p).1 (framesForWindow p).2) = [] →
      renderReply melAt cnt st fileId p = renderReply melAt' cnt' st fileId p) := by
  refine ⟨fun _ _ _ _ => rfl, ?_, ?_⟩
  · intro st fileId sr len g hg
    show (if g = fileId then some (⟨sr, len⟩ : PcmEntry) else assocFind g st.pcmStore)
        = assocFind g st.pcmStore
    rw [if_neg hg]
  · intro melAt melAt' cnt cnt' st fileId p hm
    have hfill : ∀ (mA : Int → List Rat) (cn : Nat → Nat),
        fillSegments mA cn fileId p st
          (missingTiles st fileId p (neededTiles (framesForWindow p).1 (framesForWindow p).2))
          = (st, none, 0) := by
      intro mA cn
      rw [hm]
      rfl
    apply Prod.ext
    · rw [renderReply_fst, renderReply_fst, assembleWindowMel_fst, assembleWindowMel_fst,
        hfill, hfill]
    · rw [renderReply_snd, renderReply_snd, assembleWindowMel_snd, assembleWindowMel_snd,
        hfill, hfill]

/-- Concrete cached state: the single needed tile of the example request
is cached for file `f`. -/
def cachedStateC10 : WState :=
  ⟨[("f", ⟨32000, 320000⟩)], [(tileKey "f" 0 1000 exampleParams, [])]⟩

/-- A second concrete primitive instance (different sample content). -/
def melAtOne : Int → List Rat := fun _ => List.replicate 64 1

/-- A second concrete frame-count instance. -/
def cntAll : Nat → Nat := fun L => L

unseal Rat.mul Rat.add Rat.sub Rat.inv in
/-- Witness for C10 at concrete inputs. -/
theorem set_pcm_frame_effect_witness :
    ("q" ≠ "f") ∧
    assocFind "q" (applySetPcm cachedStateC10 "f" 32000 64000).pcmStore
      = assocFind "q" cachedStateC10.pcmStore ∧
    (missingTiles cachedStateC10 "f" exampleParams
      (neededTiles (framesForWindow exampleParams).1 (framesForWindow exampleParams).2) = []) ∧
    renderReply melAtZero cntStd cachedStateC10 "f" exampleParams
      = renderReply melAtOne cntAll cachedStateC10 "f" exampleParams :=
  ⟨by decide,
   set_pcm_frame_effect.2.1 cachedStateC10 "f" 32000 64000 "q" (by decide),
   by decide,
   set_pcm_frame_effect.2.2 melAtZero melAtOne cntStd cntAll cachedStateC10 "f" exampleParams
     (by decide)⟩

/-- C4: the number of `mel_spectrogram_db` invocations of a render equals
the number of maximal contiguous runs of missing tiles in the needed-tile
partition; in particular with N ≥ 1 missing tiles that are
frame-contiguous — e.g. every needed tile missing — it is exactly one. -/
theorem prim_calls_eq_missing_runs (melAt : Int → List Rat) (cnt : Nat → Nat)
    (st : WState) (fileId : String) (p : Params)
    (hpcm : (assocFind fileId st.pcmStore).isSome) :
    renderPrimCalls melAt cnt st fileId p
      = runsFrom false ((neededTiles (framesForWindow p).1 (framesForWindow p).2).map
          (isCached st fileId p)) ∧
    ((∀ t ∈ neededTiles (framesForWindow p).1 (framesForWindow p).2,
        isCached st fileId p t = false) →
      renderPrimCalls melAt cnt st fileId p = 1) := by
  have hcount : renderPrimCalls melAt cnt st fileId p
      = (missingTiles st fileId p
          (neededTiles (framesForWindow p).1 (framesForWindow p).2)).length :=
    fillSegments_count melAt cnt fileId p _ st hpcm
  constructor
  · rw [hcount]
    exact (missingGo_length_runs st fileId p _ (framesForWindow p).1
      (neededGoF_chained _ _ _)).1
  · intro hmiss
    have hne : neededTiles (framesForWindow p).1 (framesForWindow p).2 ≠ [] :=
      neededGoF_ne_nil _ _ _ (framesForWindow_fuel p) (framesForWindow_le p)
    obtain ⟨t, rest, hn⟩ : ∃ t rest,
        neededTiles (framesForWindow p).1 (framesForWindow p).2 = t :: rest := by
      cases h : neededTiles (framesForWindow p).1 (framesForWindow p).2 with
      | nil => exact absurd h hne
      | cons t rest => exact ⟨t, rest, rfl⟩
    have hmt : missingTiles st fileId p
          (neededTiles (framesForWindow p).1 (framesForWindow p).2)
        = [⟨(framesForWindow p).1,
            tilesFrames (neededTiles (framesForWindow p).1 (framesForWindow p).2)⟩] :=
      missingTiles_allMissing st fileId p _ _ (neededGoF_chained _ _ _) hmiss t rest hn
    rw [hcount, hmt]
    rfl

/-- Concrete inputs for C4's witness: a 20-second window (2500 frames,
three tiles) with the first tile cached and the last two missing. -/
def paramsC4 : Params := { exampleParams with windowDuration := 20 }

/-- State for C4's witness. -/
def cachedStateC4 : WState :=
  ⟨[("f", ⟨32000, 640000⟩)], [(tileKey "f" 0 1024 paramsC4, [])]⟩

unseal Rat.mul Rat.add Rat.sub Rat.inv in
/-- Witness for C4 at concrete inputs. -/
theorem prim_calls_eq_missing_runs_witness :
    ((assocFind "f" cachedStateC4.pcmStore).isSome = true) ∧
    renderPrimCalls melAtZero cntStd cachedStateC4 "f" paramsC4
      = runsFrom false ((neededTiles (framesForWindow paramsC4).1 (framesForWindow paramsC4).2).map
          (isCached cachedStateC4 "f" paramsC4)) :=
  ⟨by decide,
   (prim_calls_eq_missing_runs melAtZero cntStd cachedStateC4 "f" paramsC4 (by decide)).1⟩

/-! ### Tile length well-formedness -/

/-- Every cache entry holds exactly `frames × n_mels` values, as declared
by its key. -/
def CacheWF (cache : List (TileKey × List Rat)) : Prop :=
  ∀ kv ∈ cache, kv.2.length = kv.1.frames.toNat * kv.1.n_mels

theorem padTo_length (n : Nat) (r : List Rat) : (padTo n r).length = n := by
  simp only [padTo, List.length_append, List.length_take, List.length_replicate]
  omega

theorem flattenMel_length (rows : List (List Rat)) (n : Nat) :
    (flattenMel rows n).length = rows.length * n := by
  induction rows with
  | nil => simp [flattenMel]
  | cons r rest ih =>
    simp only [flattenMel, List.map_cons, List.flatten_cons, List.length_append,
      padTo_length, List.length_cons]
    rw [show (List.map (padTo n) rest).flatten = flattenMel rest n from rfl, ih]
    ring

theorem jsSlice_length {α : Type} (l : List α) (a b : Int) :
    (jsSlice l a b).length
      = min (jsSliceIdx l.length b - jsSliceIdx l.length a)
            (l.length - jsSliceIdx l.length a) := by
  simp [jsSlice, List.length_take, List.length_drop]

theorem segUsable_length (melAt : Int → List Rat) (cnt : Nat → Nat)
    (len : Nat) (seg : Tile) (p : Params)
    (hfpp : 0 ≤ framesPerPad p) (hseg : 1 ≤ seg.frames)
    (hcnt : (framesPerPad p).toNat + seg.frames.toNat ≤ cnt (segSliceLen len seg p)) :
    (segUsable melAt cnt len seg p).length = seg.frames.toNat := by
  unfold segUsable
  rw [jsSlice_length]
  have hlen : (segMelFrames melAt cnt len seg p).length = cnt (segSliceLen len seg p) := by
    unfold segMelFrames
    rw [List.length_map, List.length_range]
  rw [hlen]
  have h1 : jsSliceIdx (cnt (segSliceLen len seg p)) (framesPerPad p) = (framesPerPad p).toNat := by
    unfold jsSliceIdx
    rw [if_neg (by omega)]
    omega
  have h2 : jsSliceIdx (cnt (segSliceLen len seg p)) (framesPerPad p + seg.frames)
      = (framesPerPad p).toNat + seg.frames.toNat := by
    unfold jsSliceIdx
    rw [if_neg (by omega)]
    omega
  rw [h1, h2]
  omega

theorem storeTilesGo_wf (fileId : String) (p : Params) (seg : Tile) (usable : List (List Rat))
    (hus : usable.length = seg.frames.toNat) :
    ∀ (fuel : Nat) (cursor : Int) (c : List (TileKey × List Rat)),
      CacheWF c → 0 ≤ cursor →
      CacheWF (storeTilesGo fileId p seg usable fuel cursor c) := by
  intro fuel
  induction fuel with
  | zero => intro cursor c hwf _; exact hwf
  | succ n ih =>
    intro cursor c hwf hcur
    by_cases hc : cursor < seg.frames
    · simp only [storeTilesGo, if_pos hc]
      apply ih
      · intro kv hkv
        rcases List.mem_cons.mp hkv with h | h
        · subst h
          show (flattenMel (jsSlice usable cursor (cursor + min TILE_FRAMES (seg.frames - cursor)))
              p.n_mels).length = _
          rw [flattenMel_length, jsSlice_length, hus]
          have hT : (1 : Int) ≤ TILE_FRAMES := by norm_num [TILE_FRAMES]
          have hw1 : 1 ≤ min TILE_FRAMES (seg.frames - cursor) := le_min hT (by omega)
          have hw2 : min TILE_FRAMES (seg.frames - cursor) ≤ seg.frames - cursor :=
            min_le_right _ _
          have ha : jsSliceIdx seg.frames.toNat cursor = cursor.toNat := by
            unfold jsSliceIdx
            rw [if_neg (by omega)]
            omega
          have hb : jsSliceIdx seg.frames.toNat (cursor + min TILE_FRAMES (seg.frames - cursor))
              = (cursor + min TILE_FRAMES (seg.frames - cursor)).toNat := by
            unfold jsSliceIdx
            rw [if_neg (by omega)]
            omega
          rw [ha, hb]
          show _ = (tileKey fileId (seg.startFrame + cursor)
            (min TILE_FRAMES (seg.frames - cursor)) p).frames.toNat
              * (tileKey fileId (seg.startFrame + cursor)
                  (min TILE_FRAMES (seg.frames - cursor)) p).n_mels
          have hk1 : (tileKey fileId (seg.startFrame + cursor)
              (min TILE_FRAMES (seg.frames - cursor)) p).frames
                = min TILE_FRAMES (seg.frames - cursor) := rfl
          have hk2 : (tileKey fileId (seg.startFrame + cursor)
              (min TILE_FRAMES (seg.frames - cursor)) p).n_mels = p.n_mels := rfl
          rw [hk1, hk2]
          congr 1
          omega
        · exact hwf kv h
      · have hT : (1 : Int) ≤ TILE_FRAMES := by norm_num [TILE_FRAMES]
        have hw1 : 1 ≤ min TILE_FRAMES (seg.frames - cursor) := le_min hT (by omega)
        omega
    · simp only [storeTilesGo, if_neg hc]
      exact hwf

theorem computeSegment_wf (melAt : Int → List Rat) (cnt : Nat → Nat)
    (st : WState) (fileId : String) (seg : Tile) (p : Params) (st' : WState) (entry : PcmEntry)
    (hpcm : assocFind fileId st.pcmStore = some entry)
    (hok : computeSegment melAt cnt st fileId seg p = .ok st')
    (hwf : CacheWF st.cache)
    (hfpp : 0 ≤ framesPerPad p)
    (hseg : 1 ≤ seg.frames)
    (hcnt : (framesPerPad p).toNat + seg.frames.toNat ≤ cnt (segSliceLen entry.len seg p)) :
    CacheWF st'.cache := by
  unfold computeSegment at hok
  rw [hpcm] at hok
  cases hok
  exact storeTilesGo_wf fileId p seg _
    (segUsable_length melAt cnt entry.len seg p hfpp hseg hcnt) _ _ _ hwf le_rfl

theorem fillSegments_wf (melAt : Int → List Rat) (cnt : Nat → Nat)
    (fileId : String) (p : Params) (entry : PcmEntry) :
    ∀ (missing : List Tile) (st : WState),
      assocFind fileId st.pcmStore = some entry →
      CacheWF st.cache →
      0 ≤ framesPerPad p →
      (∀ seg ∈ missing, 1 ≤ seg.frames ∧
        (framesPerPad p).toNat + seg.frames.toNat ≤ cnt (segSliceLen entry.len seg p)) →
      CacheWF (fillSegments melAt cnt fileId p st missing).1.cache := by
  intro missing
  induction missing with
  | nil => intro st _ hwf _ _; exact hwf
  | cons seg rest ih =>
    intro st hpcm hwf hfpp hsegs
    simp only [fillSegments]
    cases hcs : computeSegment melAt cnt st fileId seg p with
    | error e =>
      exfalso
      unfold computeSegment at hcs
      rw [hpcm] at hcs
      cases hcs
    | ok st' =>
      simp only
      have hpcm' : assocFind fileId st'.pcmStore = some entry := by
        rw [computeSegment_pcmStore _ _ _ _ _ _ _ hcs]
        exact hpcm
      obtain ⟨hseg1, hseg2⟩ := hsegs seg (List.mem_cons_self _ _)
      exact ih st' hpcm'
        (computeSegment_wf melAt cnt st fileId seg p st' entry hpcm hcs hwf hfpp hseg1 hseg2)
        hfpp (fun u hu => hsegs u (List.mem_cons_of_mem _ hu))

theorem missingGo_frames_pos (st : WState) (fileId : String) (p : Params) :
    ∀ (needed : List Tile) (c : Int),
      ChainedFrom c needed →
      ((∀ t ∈ missingGo st fileId p none needed, 1 ≤ t.frames) ∧
       (∀ s, s ≤ c - 1 →
        ∀ t ∈ missingGo st fileId p (some (s, c - 1)) needed, 1 ≤ t.frames)) := by
  intro needed
  induction needed with
  | nil =>
    intro c _
    constructor
    · intro t ht; simp [missingGo] at ht
    · intro s hs t ht
      simp only [missingGo, List.mem_singleton] at ht
      subst ht
      show 1 ≤ c - 1 - s + 1
      omega
  | cons t rest ih =>
    intro c hch
    obtain ⟨hstart, hw, hch'⟩ := chainedFrom_cons.mp hch
    obtain ⟨ihnone, ihsome⟩ := ih (c + t.frames) hch'
    by_cases hc : isCached st fileId p t
    · constructor
      · intro u hu
        simp only [missingGo, hc, if_true] at hu
        exact ihnone u hu
      · intro s hs u hu
        simp only [missingGo, hc, if_true, List.mem_cons] at hu
        rcases hu with h | h
        · subst h
          show 1 ≤ c - 1 - s + 1
          omega
        · exact ihnone u h
    · have hcf : isCached st fileId p t = false := by simpa using hc
      constructor
      · intro u hu
        simp only [missingGo, hcf, Bool.false_eq_true, if_false] at hu
        have heq : t.startFrame + t.frames - 1 = (c + t.frames) - 1 := by omega
        rw [heq] at hu
        exact ihsome t.startFrame (by omega) u hu
      · intro s hs u hu
        simp only [missingGo, hcf, Bool.false_eq_true, if_false] at hu
        have he : t.startFrame = (c - 1) + 1 := by omega
        rw [if_pos he] at hu
        have heq : t.startFrame + t.frames - 1 = (c + t.frames) - 1 := by omega
        rw [heq] at hu
        exact ihsome s (by omega) u hu

theorem collectTiles_flatten_length (st : WState) (fileId : String) (p : Params) :
    ∀ (needed : List Tile) (bufs : List (List Rat)),
      collectTiles st fileId p needed = some bufs →
      CacheWF st.cache →
      bufs.flatten.length = ((needed.map (fun t => t.frames.toNat)).sum) * p.n_mels := by
  intro needed
  induction needed with
  | nil =>
    intro bufs h _
    cases h
    simp
  | cons t rest ih =>
    intro bufs h hwf
    unfold collectTiles at h
    cases hfind : assocFind (tileKey fileId t.startFrame t.frames p) st.cache with
    | none => rw [hfind] at h; cases h
    | some v =>
      rw [hfind] at h
      cases hrest : collectTiles st fileId p rest with
      | none => rw [hrest] at h; cases h
      | some vs =>
        rw [hrest] at h
        cases h
        have hv : v.length = t.frames.toNat * p.n_mels := by
          have hk := hwf _ (assocFind_mem _ _ _ hfind)
          exact hk
        simp only [List.flatten_cons, List.length_append, hv, List.map_cons, List.sum_cons]
        rw [ih vs hrest hwf]
        ring

theorem sum_toNat_eq_tilesFrames (l : List Tile) (h : ∀ t ∈ l, 1 ≤ t.frames) :
    (Nat.cast ((l.map (fun t => t.frames.toNat)).sum) : Int) = tilesFrames l := by
  induction l with
  | nil => rfl
  | cons t rest ih =>
    simp only [List.map_cons, List.sum_cons, tilesFrames_cons]
    have ihh := ih (fun u hu => h u (List.mem_cons_of_mem _ hu))
    have ht := h t (List.mem_cons_self _ _)
    omega

/-- C3 (amended): whenever a render completes with a buffer — and
provided the Spectral Primitive returns at least
`framesPerPad + seg.frames` rows for each missing segment's padded slice
(which holds when the padded window lies inside the PCM, but fails for
windows extending past its end) — the returned frame count is
`totalFrames = F1 - F0 + 1`, the flattened buffer holds exactly
`totalFrames × n_mels` values, and every tile in the resulting cache
holds exactly the `frameCount × n_mels` values its key declares. -/
theorem assembled_buffer_length (melAt : Int → List Rat) (cnt : Nat → Nat)
    (st : WState) (fileId : String) (p : Params) (entry : PcmEntry)
    (buf : List Rat) (total : Int)
    (hwf : CacheWF st.cache)
    (hpcm : assocFind fileId st.pcmStore = some entry)
    (hfpp : 0 ≤ framesPerPad p)
    (hcnt : ∀ seg ∈ missingTiles st fileId p
        (neededTiles (framesForWindow p).1 (framesForWindow p).2),
      (framesPerPad p).toNat + seg.frames.toNat ≤ cnt (segSliceLen entry.len seg p))
    (hok : (assembleWindowMel melAt cnt st fileId p).2 = Except.ok (buf, total)) :
    total = (framesForWindow p).2 - (framesForWindow p).1 + 1 ∧
    buf.length = total.toNat * p.n_mels ∧
    CacheWF (assembleWindowMel melAt cnt st fileId p).1.cache := by
  have hsegs : ∀ seg ∈ missingTiles st fileId p
      (neededTiles (framesForWindow p).1 (framesForWindow p).2),
      1 ≤ seg.frames ∧
        (framesPerPad p).toNat + seg.frames.toNat ≤ cnt (segSliceLen entry.len seg p) := by
    intro seg hseg
    refine ⟨?_, hcnt seg hseg⟩
    exact (missingGo_frames_pos st fileId p _ (framesForWindow p).1
      (neededGoF_chained _ _ _)).1 seg hseg
  have hwf' : CacheWF (fillSegments melAt cnt fileId p st
      (missingTiles st fileId p
        (neededTiles (framesForWindow p).1 (framesForWindow p).2))).1.cache :=
    fillSegments_wf melAt cnt fileId p entry _ st hpcm hwf hfpp hsegs
  rw [assembleWindowMel_snd] at hok
  split at hok
  · cases hok
  · next hfillerr =>
    split at hok
    · cases hok
    · next bufs hcol =>
      cases hok
      refine ⟨rfl, ?_, ?_⟩
      · have hflat := collectTiles_flatten_length _ fileId p _ bufs hcol hwf'
        have hpos : ∀ t ∈ neededTiles (framesForWindow p).1 (framesForWindow p).2,
            1 ≤ t.frames := by
          intro t ht
          obtain ⟨_, hw⟩ := neededGoF_widths _ _ _ t ht
          rw [hw]
          simp only [TILE_FRAMES, le_min_iff]
          obtain ⟨hs, _⟩ := neededGoF_widths _ _ _ t ht
          omega
        have hsum := sum_toNat_eq_tilesFrames _ hpos
        have htot : tilesFrames (neededTiles (framesForWindow p).1 (framesForWindow p).2)
            = (framesForWindow p).2 - (framesForWindow p).1 + 1 := by
          rw [neededTiles, neededGoF_sum _ _ _ (le_refl _)]
          have := framesForWindow_le p
          omega
        have hcast : (Nat.cast (((neededTiles (framesForWindow p).1 (framesForWindow p).2).map
              (fun t => t.frames.toNat)).sum) : Int)
            = (framesForWindow p).2 - (framesForWindow p).1 + 1 := by
          rw [hsum, htot]
        have hS : ((neededTiles (framesForWindow p).1 (framesForWindow p).2).map
              (fun t => t.frames.toNat)).sum
            = ((framesForWindow p).2 - (framesForWindow p).1 + 1).toNat := by omega
        rw [hflat, hS]
      · rw [assembleWindowMel_fst]
        exact hwf'

/-- Concrete inputs for C3's witness: a one-frame window with PCM long
enough, n_mels = 1, and a centered-style primitive frame count. -/
def paramsC3 : Params := { exampleParams with windowDuration := 1/125, n_mels := 1 }

/-- Centered-style frame count (`floor(L/hop) + 1`), one concrete
instance of the opaque `cnt` parameter. -/
def cntCentered : Nat → Nat := fun L => L / 256 + 1

/-- Ten seconds of loaded PCM for file `f`, empty cache. -/
def tenSecondState : WState := ⟨[("f", ⟨32000, 320000⟩)], []⟩

unseal Rat.mul Rat.add Rat.sub Rat.inv in
/-- Witness for C3's amended theorem at concrete inputs. -/
theorem assembled_buffer_length_witness :
    (assocFind "f" tenSecondState.pcmStore = some ⟨32000, 320000⟩) ∧
    (0 ≤ framesPerPad paramsC3) ∧
    ((assembleWindowMel melAtZero cntCentered tenSecondState "f" paramsC3).2
      = Except.ok ([0], 1)) ∧
    ((1 : Int) = (framesForWindow paramsC3).2 - (framesForWindow paramsC3).1 + 1 ∧
     ([(0 : Rat)]).length = (1 : Int).toNat * paramsC3.n_mels ∧
     CacheWF (assembleWindowMel melAtZero cntCentered tenSecondState "f" paramsC3).1.cache) :=
  ⟨by decide, by decide, by rfl,
   assembled_buffer_length melAtZero cntCentered tenSecondState "f" paramsC3 ⟨32000, 320000⟩
     [0] 1 (fun kv hkv => absurd hkv (List.not_mem_nil kv)) (by decide) (by decide)
     (by decide) (by rfl)⟩

/-! ### Slice and flatten algebra for the cache-correctness claim -/

theorem jsSlice_get? {α : Type} (l : List α) (a b : Int) (i : Nat)
    (hi : i < jsSliceIdx l.length b - jsSliceIdx l.length a) :
    (jsSlice l a b).get? i = l.get? (jsSliceIdx l.length a + i) := by
  unfold jsSlice
  rw [List.get?_take hi, List.get?_drop]

theorem jsSlice_map {α β : Type} (f : α → β) (l : List α) (a b : Int) :
    jsSlice (l.map f) a b = (jsSlice l a b).map f := by
  unfold jsSlice
  rw [List.length_map, List.map_take, List.map_drop]

theorem jsSlice_append {α : Type} (l : List α) (a m b : Int)
    (h0 : 0 ≤ a) (ham : a ≤ m) (hmb : m ≤ b) :
    jsSlice l a m ++ jsSlice l m b = jsSlice l a b := by
  unfold jsSlice jsSliceIdx
  rw [if_neg (by omega), if_neg (by omega), if_neg (by omega)]
  have hord : min a.toNat l.length ≤ min m.toNat l.length ∧
      min m.toNat l.length ≤ min b.toNat l.length := by omega
  rw [show l.drop (min m.toNat l.length)
      = (l.drop (min a.toNat l.length)).drop (min m.toNat l.length - min a.toNat l.length) by
    rw [List.drop_drop]
    congr 1
    omega]
  rw [← List.take_add]
  congr 1
  omega

theorem jsSlice_degenerate {α : Type} (l : List α) (a : Int) : jsSlice l a a = [] := by
  unfold jsSlice
  simp

theorem jsSlice_all {α : Type} (l : List α) (b : Int)
    (hb : 0 ≤ b) (hlen : l.length ≤ b.toNat) : jsSlice l 0 b = l := by
  unfold jsSlice jsSliceIdx
  rw [if_neg (by omega), if_neg (by omega)]
  simp only [Int.toNat_zero, Nat.zero_min, List.drop_zero, Nat.sub_zero]
  rw [min_eq_right hlen]
  exact List.take_length _

theorem jsSlice_length_le {α : Type} (l : List α) (a n : Int) (hn : 0 ≤ n) :
    (jsSlice l a (a + n)).length ≤ n.toNat := by
  rw [jsSlice_length]
  unfold jsSliceIdx
  split <;> split <;> omega

theorem flattenMel_append (xs ys : List (List Rat)) (n : Nat) :
    flattenMel (xs ++ ys) n = flattenMel xs n ++ flattenMel ys n := by
  unfold flattenMel
  rw [List.map_append, List.flatten_append]

theorem flattenMel_map_singleton {α : Type} (g : α → Rat) (l : List α) :
    flattenMel (l.map (fun s => [g s])) 1 = l.map g := by
  induction l with
  | nil => rfl
  | cons s rest ih =>
    simp only [List.map_cons, flattenMel, List.flatten_cons] at *
    rw [show padTo 1 [g s] = [g s] by simp [padTo]]
    rw [show ((rest.map fun s => [g s]).map (padTo 1)).flatten = rest.map g from ih]
    rfl

theorem tilesFrames_nonneg (l : List Tile) (h : ∀ t ∈ l, 1 ≤ t.frames) :
    0 ≤ tilesFrames l := by
  induction l with
  | nil => simp [tilesFrames]
  | cons t rest ih =>
    rw [tilesFrames_cons]
    have h1 := h t (List.mem_cons_self _ _)
    have h2 := ih (fun u hu => h u (List.mem_cons_of_mem _ hu))
    omega

theorem tileKey_inj (fileId : String) (a b a' b' : Int) (p : Params)
    (h : tileKey fileId a b p = tileKey fileId a' b' p) : a = a' ∧ b = b' := by
  unfold tileKey at h
  injection h with h1 h2 h3
  exact ⟨h2, h3⟩

theorem assocFind_append_of_mem_unique {κ α : Type} [DecidableEq κ]
    (k : κ) (v : α) (l2 : List (κ × α)) :
    ∀ l1 : List (κ × α), (k, v) ∈ l1 →
      (∀ kv ∈ l1, kv.1 = k → kv.2 = v) →
      assocFind k (l1 ++ l2) = some v := by
  intro l1
  induction l1 with
  | nil => intro h _; simp at h
  | cons kv rest ih =>
    intro hmem huniq
    obtain ⟨k', v'⟩ := kv
    show (if k = k' then some v' else assocFind k (rest ++ l2)) = some v
    by_cases hk : k = k'
    · rw [if_pos hk]
      have hv' : v' = v := huniq (k', v') (List.mem_cons_self _ _) hk.symm
      rw [hv']
    · rw [if_neg hk]
      rcases List.mem_cons.mp hmem with h | h
      · cases h; exact absurd rfl hk
      · exact ih h (fun u hu hu1 => huniq u (List.mem_cons_of_mem _ hu) hu1)

theorem collectTiles_all_found (st : WState) (fileId : String) (p : Params) :
    ∀ (needed : List Tile) (f : Tile → List Rat),
      (∀ t ∈ needed,
        assocFind (tileKey fileId t.startFrame t.frames p) st.cache = some (f t)) →
      collectTiles st fileId p needed = some (needed.map f) := by
  intro needed
  induction needed with
  | nil => intro f _; rfl
  | cons t rest ih =>
    intro f hall
    unfold collectTiles
    rw [hall t (List.mem_cons_self _ _),
      ih f (fun u hu => hall u (List.mem_cons_of_mem _ hu))]
    rfl

/-- The chunk loop of `computeSegmentAndPopulateTiles` re-creates exactly
the needed-tile partition of its segment: the stored entries are the
tiles of `neededGoF` over `[seg.startFrame, seg.startFrame+seg.frames-1]`
(in reverse order, since each `Map.set` is modelled by a prepend), each
holding the matching slice of the usable rows. -/
theorem storeTilesGo_eq_needed (fileId : String) (p : Params) (seg : Tile)
    (usable : List (List Rat)) :
    ∀ (fuel : Nat) (cursor : Int) (c : List (TileKey × List Rat)),
      storeTilesGo fileId p seg usable fuel cursor c
        = ((neededGoF (seg.startFrame + seg.frames - 1) fuel (seg.startFrame + cursor)).map
            (fun t => (tileKey fileId t.startFrame t.frames p,
              flattenMel (jsSlice usable (t.startFrame - seg.startFrame)
                (t.startFrame - seg.startFrame + t.frames)) p.n_mels))).reverse ++ c := by
  intro fuel
  induction fuel with
  | zero => intro cursor c; rfl
  | succ n ih =>
    intro cursor c
    by_cases hc : cursor < seg.frames
    · have hc2 : seg.startFrame + cursor ≤ seg.startFrame + seg.frames - 1 := by omega
      have hmin : min TILE_FRAMES (seg.startFrame + seg.frames - 1 - (seg.startFrame + cursor) + 1)
          = min TILE_FRAMES (seg.frames - cursor) := by
        congr 1
        omega
      simp only [storeTilesGo, if_pos hc, neededGoF, if_pos hc2, hmin]
      rw [ih (cursor + min TILE_FRAMES (seg.frames - cursor))]
      simp only [List.map_cons, List.reverse_cons, List.append_assoc, List.cons_append,
        List.nil_append]
      have e1 : seg.startFrame + cursor - seg.startFrame = cursor := by omega
      have e2 : seg.startFrame + (cursor + min TILE_FRAMES (seg.frames - cursor))
          = seg.startFrame + cursor + min TILE_FRAMES (seg.frames - cursor) := by omega
      rw [e1, e2]
    · have hc2 : ¬ seg.startFrame + cursor ≤ seg.startFrame + seg.frames - 1 := by omega
      simp only [storeTilesGo, if_neg hc, neededGoF, if_neg hc2, List.map_nil,
        List.reverse_nil, List.nil_append]

theorem chainedFrom_frames_pos :
    ∀ (l : List Tile) (c : Int), ChainedFrom c l → ∀ t ∈ l, 1 ≤ t.frames := by
  intro l
  induction l with
  | nil => intro c _ t ht; simp at ht
  | cons r rs ih =>
    intro c hch t ht
    obtain ⟨_, hw, hch'⟩ := chainedFrom_cons.mp hch
    rcases List.mem_cons.mp ht with h | h
    · subst h; exact hw
    · exact ih _ hch' t h

/-- Concatenating the tile-relative slices of a chained tile list
reassembles the one contiguous slice over the whole range. -/
theorem flatten_slices (usable : List (List Rat)) (n : Nat) (F0 : Int) :
    ∀ (needed : List Tile) (c : Int),
      ChainedFrom c needed → 0 ≤ c - F0 →
      ((needed.map (fun t => flattenMel (jsSlice usable (t.startFrame - F0)
          (t.startFrame - F0 + t.frames)) n)).flatten : List Rat)
        = flattenMel (jsSlice usable (c - F0) (c - F0 + tilesFrames needed)) n := by
  intro needed
  induction needed with
  | nil =>
    intro c _ _
    rw [tilesFrames_nil, List.map_nil, List.flatten_nil, add_zero, jsSlice_degenerate]
    rfl
  | cons t rest ih =>
    intro c hch h0
    obtain ⟨hstart, hw, hch'⟩ := chainedFrom_cons.mp hch
    have hrest := ih (c + t.frames) hch' (by omega)
    have hnn : 0 ≤ tilesFrames rest :=
      tilesFrames_nonneg rest (chainedFrom_frames_pos rest (c + t.frames) hch')
    rw [List.map_cons, List.flatten_cons, hrest, ← flattenMel_append]
    have e1 : t.startFrame - F0 = c - F0 := by omega
    have e3 : c + t.frames - F0 = c - F0 + t.frames := by omega
    rw [e1, e3,
      jsSlice_append usable (c - F0) (c - F0 + t.frames)
        (c - F0 + t.frames + tilesFrames rest) h0 (by omega) (by omega)]
    have e5 : c - F0 + tilesFrames (t :: rest)
        = c - F0 + t.frames + tilesFrames rest := by
      rw [tilesFrames_cons]
      ring
    rw [e5]

/-- The reference computation coincides with one segment computation over
the whole window range. -/
theorem refWindowBuffer_eq_segUsable (melAt : Int → List Rat) (cnt : Nat → Nat)
    (len : Nat) (p : Params) :
    refWindowBuffer melAt cnt len p
      = flattenMel (segUsable melAt cnt len
          ⟨(framesForWindow p).1, (framesForWindow p).2 - (framesForWindow p).1 + 1⟩ p)
          p.n_mels := by
  have h : (framesForWindow p).2 - (framesForWindow p).1 + 1
      = max 1 (Int.floor (p.windowDuration * fps p)) := by
    rw [framesForWindow_snd]
    ring
  rw [h]
  rfl

/-- C1 (amended): for a render whose needed tiles are all absent from the
cache — e.g. the first render of a window — the Window Assembler computes
one contiguous missing segment covering the whole window, and the
concatenation of the tiles it produces equals the buffer of a single
Spectral Primitive call over the full un-tiled frame range with the same
padding discard; this includes the case where the left padding is clamped
at sample 0 of the buffer, because the single segment clamps exactly as
the reference does.  (With tiles previously cached from a narrower
clamped window the equality fails; see the counterexample.) -/
theorem tiles_concat_eq_reference (melAt : Int → List Rat) (cnt : Nat → Nat)
    (st : WState) (fileId : String) (p : Params) (entry : PcmEntry)
    (hpcm : assocFind fileId st.pcmStore = some entry)
    (hmiss : ∀ t ∈ neededTiles (framesForWindow p).1 (framesForWindow p).2,
      isCached st fileId p t = false) :
    (assembleWindowMel melAt cnt st fileId p).2
      = Except.ok (refWindowBuffer melAt cnt entry.len p,
          (framesForWindow p).2 - (framesForWindow p).1 + 1) := by
  have hne : neededTiles (framesForWindow p).1 (framesForWindow p).2 ≠ [] :=
    neededGoF_ne_nil _ _ _ (framesForWindow_fuel p) (framesForWindow_le p)
  obtain ⟨t0, rest0, hn⟩ : ∃ t0 rest0,
      neededTiles (framesForWindow p).1 (framesForWindow p).2 = t0 :: rest0 := by
    cases h : neededTiles (framesForWindow p).1 (framesForWindow p).2 with
    | nil => exact absurd h hne
    | cons a b => exact ⟨a, b, rfl⟩
  have htot : tilesFrames (neededTiles (framesForWindow p).1 (framesForWindow p).2)
      = (framesForWindow p).2 - (framesForWindow p).1 + 1 := by
    rw [neededTiles, neededGoF_sum _ _ _ (le_refl _)]
    have := framesForWindow_le p
    omega
  have hmt0 : missingTiles st fileId p
        (neededTiles (framesForWindow p).1 (framesForWindow p).2)
      = [⟨(framesForWindow p).1,
          tilesFrames (neededTiles (framesForWindow p).1 (framesForWindow p).2)⟩] :=
    missingTiles_allMissing st fileId p _ _ (neededGoF_chained _ _ _) hmiss t0 rest0 hn
  have hmt : missingTiles st fileId p
        (neededTiles (framesForWindow p).1 (framesForWindow p).2)
      = [⟨(framesForWindow p).1, (framesForWindow p).2 - (framesForWindow p).1 + 1⟩] := by
    rw [hmt0, htot]
  -- the segment covering the whole window
  set seg : Tile :=
    ⟨(framesForWindow p).1, (framesForWindow p).2 - (framesForWindow p).1 + 1⟩ with hseg
  set usable : List (List Rat) := segUsable melAt cnt entry.len seg p with husable
  have hfill : fillSegments melAt cnt fileId p st
      (missingTiles st fileId p (neededTiles (framesForWindow p).1 (framesForWindow p).2))
      = ({ st with cache := storeTilesGo fileId p seg usable seg.frames.toNat 0 st.cache },
          none, 1) := by
    rw [hmt]
    simp only [fillSegments, computeSegment, hpcm]
  -- the stored chunks are exactly the needed tiles with their slices
  have hstore : storeTilesGo fileId p seg usable seg.frames.toNat 0 st.cache
      = ((neededTiles (framesForWindow p).1 (framesForWindow p).2).map
          (fun t => (tileKey fileId t.startFrame t.frames p,
            flattenMel (jsSlice usable (t.startFrame - seg.startFrame)
              (t.startFrame - seg.startFrame + t.frames)) p.n_mels))).reverse
        ++ st.cache := by
    rw [storeTilesGo_eq_needed]
    have e1 : seg.startFrame + seg.frames - 1 = (framesForWindow p).2 := by
      rw [hseg]
      simp only
      omega
    have e2 : seg.startFrame + (0 : Int) = (framesForWindow p).1 := by
      rw [hseg]
      simp only
      omega
    have e3 : seg.frames.toNat
        = ((framesForWindow p).2 + 1 - (framesForWindow p).1).toNat := by
      rw [hseg]
      simp only
      omega
    rw [e1, e2, e3]
    rfl
  -- every needed tile is found in the final cache with its slice content
  have hfound : ∀ t ∈ neededTiles (framesForWindow p).1 (framesForWindow p).2,
      assocFind (tileKey fileId t.startFrame t.frames p)
        (storeTilesGo fileId p seg usable seg.frames.toNat 0 st.cache)
      = some (flattenMel (jsSlice usable (t.startFrame - seg.startFrame)
          (t.startFrame - seg.startFrame + t.frames)) p.n_mels) := by
    intro t ht
    rw [hstore]
    apply assocFind_append_of_mem_unique
    · rw [List.mem_reverse]
      exact List.mem_map_of_mem _ ht
    · intro kv hkv hk
      rw [List.mem_reverse] at hkv
      obtain ⟨u, hu, hue⟩ := List.mem_map.mp hkv
      subst hue
      simp only at hk
      obtain ⟨hks, hkf⟩ := tileKey_inj fileId u.startFrame u.frames
        t.startFrame t.frames p hk
      simp only [hks, hkf]
  have hcol : collectTiles
      { st with cache := storeTilesGo fileId p seg usable seg.frames.toNat 0 st.cache }
      fileId p (neededTiles (framesForWindow p).1 (framesForWindow p).2)
      = some ((neededTiles (framesForWindow p).1 (framesForWindow p).2).map
          (fun t => flattenMel (jsSlice usable (t.startFrame - seg.startFrame)
            (t.startFrame - seg.startFrame + t.frames)) p.n_mels)) :=
    collectTiles_all_found _ fileId p _ _ hfound
  -- assemble
  rw [assembleWindowMel_snd, hfill]
  simp only
  rw [hcol]
  simp only
  congr 1
  refine Prod.ext ?_ rfl
  simp only
  -- flatten of the per-tile slices is the whole usable slice
  have hflat := flatten_slices usable p.n_mels seg.startFrame
    (neededTiles (framesForWindow p).1 (framesForWindow p).2) (framesForWindow p).1
    (neededGoF_chained _ _ _) (by rw [hseg]; simp only; omega)
  have e0 : (framesForWindow p).1 - seg.startFrame = 0 := by
    rw [hseg]
    simp only
    omega
  rw [e0, htot] at hflat
  rw [hflat]
  -- the whole usable slice is all of usable
  have husable_le : usable.length
      ≤ ((framesForWindow p).2 - (framesForWindow p).1 + 1).toNat := by
    rw [husable]
    unfold segUsable
    have := jsSlice_length_le (segMelFrames melAt cnt entry.len seg p) (framesPerPad p)
      seg.frames (by rw [hseg]; simp only; have := framesForWindow_le p; omega)
    rw [hseg] at this
    simp only at this
    exact this
  have hT0 : (0 : Int) ≤ (framesForWindow p).2 - (framesForWindow p).1 + 1 := by
    have := framesForWindow_le p
    omega
  rw [show (0 : Int) + ((framesForWindow p).2 - (framesForWindow p).1 + 1)
      = (framesForWindow p).2 - (framesForWindow p).1 + 1 by ring]
  rw [jsSlice_all usable _ hT0 husable_le]
  rw [refWindowBuffer_eq_segUsable]

unseal Rat.mul Rat.add Rat.sub Rat.inv in
/-- Witness for C1's amended theorem at concrete inputs. -/
theorem tiles_concat_eq_reference_witness :
    (assocFind "f" tenSecondState.pcmStore = some ⟨32000, 320000⟩) ∧
    (∀ t ∈ neededTiles (framesForWindow paramsC3).1 (framesForWindow paramsC3).2,
      isCached tenSecondState "f" paramsC3 t = false) ∧
    (assembleWindowMel melAtZero cntCentered tenSecondState "f" paramsC3).2
      = Except.ok (refWindowBuffer melAtZero cntCentered 320000 paramsC3,
          (framesForWindow paramsC3).2 - (framesForWindow paramsC3).1 + 1) :=
  ⟨by decide, by decide,
   tiles_concat_eq_reference melAtZero cntCentered tenSecondState "f" paramsC3 ⟨32000, 320000⟩
     (by decide) (by decide)⟩

/-! ### Counterexample inputs for the cache-correctness claim

Two renders over the same file: render A covers frames `[0, 1023]`
(one full tile, with the left padding clamped at sample 0), render B then
covers `[0, 2047]`, reusing the cached first tile and computing only the
second.  Because render A's padding was clamped while render B's second
segment is not, the reused tile carries values shifted by
`floor(n_fft/hop)` frames relative to what a single full-range call
produces, so the concatenation differs from the reference. -/

/-- The rational value of an integer sample position (a transparent
concrete instance for the opaque primitive row). -/
def valAt (s : Int) : Rat := (s : Rat)

/-- Concrete primitive rows: position markers, `n_mels = 1`. -/
def melAtLin : Int → List Rat := fun s => [valAt s]

/-- Render A parameters: `hop = 1`, `n_fft = 4`, 1024-frame window. -/
def cexParamsA : Params :=
  { sampleRate := 1, n_fft := 4, win_length := 4, hop_length := 1,
    f_min := 0, f_max := 1/2, n_mels := 1, top_db := 80,
    t0 := 0, windowDuration := 1024, dynamicGain := false, autoGamma := false,
    gammaValue := 1, gainPercentile := 95, brightness := 0, contrast := 1 }

/-- Render B parameters: same analysis fingerprint, 2048-frame window. -/
def cexParamsB : Params := { cexParamsA with windowDuration := 2048 }

/-- Initial state: 4096 samples loaded for file `f`, empty cache. -/
def cexState0 : WState := ⟨[("f", ⟨1, 4096⟩)], []⟩

/-- The worker state after render A. -/
def cexStateA : WState := (renderReply melAtLin cntAll cexState0 "f" cexParamsA).1

/-- Render A's single (missing) segment. -/
def segA : Tile := ⟨0, 1024⟩

/-- The usable rows of render A's segment computation. -/
def usableA : List (List Rat) := segUsable melAtLin cntAll 4096 segA cexParamsA

/-- The cache key of render A's single tile. -/
def keyA : TileKey := tileKey "f" 0 1024 cexParamsA

/-- The tile content stored by render A. -/
def contentA : List Rat := flattenMel (jsSlice usableA 0 1024) 1

unseal Rat.mul Rat.add Rat.sub Rat.inv in
theorem cexStateA_cache : cexStateA.cache = [(keyA, contentA)] := by
  have hmissA : missingTiles cexState0 "f" cexParamsA
      (neededTiles (framesForWindow cexParamsA).1 (framesForWindow cexParamsA).2)
      = [segA] := by decide
  have h1 : cexStateA.cache = (fillSegments melAtLin cntAll "f" cexParamsA cexState0
      (missingTiles cexState0 "f" cexParamsA
        (neededTiles (framesForWindow cexParamsA).1 (framesForWindow cexParamsA).2))).1.cache :=
    rfl
  rw [h1, hmissA]
  simp only [fillSegments, computeSegment]
  rw [show assocFind "f" cexState0.pcmStore = some ⟨1, 4096⟩ from by decide]
  simp only
  rw [storeTilesGo_eq_needed]
  rw [show neededGoF (segA.startFrame + segA.frames - 1) segA.frames.toNat (segA.startFrame + 0)
      = [segA] from by decide]
  simp only [List.map_cons, List.map_nil, List.reverse_cons, List.reverse_nil,
    List.nil_append, List.cons_append]
  rfl

/-- Render B's second (missing) segment. -/
def segB : Tile := ⟨1024, 1024⟩

/-- The usable rows of render B's segment computation. -/
def usableB : List (List Rat) := segUsable melAtLin cntAll 4096 segB cexParamsB

/-- The tile content stored for render B's second tile. -/
def contentB : List Rat := flattenMel (jsSlice usableB 0 1024) 1

/-- The cache key of render B's second tile. -/
def keyB : TileKey := tileKey "f" 1024 1024 cexParamsB

unseal Rat.mul Rat.add Rat.sub Rat.inv in
theorem cexAssembleB :
    (assembleWindowMel melAtLin cntAll cexStateA "f" cexParamsB).2
      = Except.ok (contentA ++ contentB, 2048) := by
  have hmissB : missingTiles cexStateA "f" cexParamsB
      (neededTiles (framesForWindow cexParamsB).1 (framesForWindow cexParamsB).2)
      = [segB] := by decide
  have hpcmA : assocFind "f" cexStateA.pcmStore = some ⟨1, 4096⟩ := by decide
  have hstoreB : storeTilesGo "f" cexParamsB segB
      (segUsable melAtLin cntAll (PcmEntry.mk 1 4096).len segB cexParamsB)
      segB.frames.toNat 0 cexStateA.cache
      = (keyB, contentB) :: [(keyA, contentA)] := by
    rw [storeTilesGo_eq_needed, cexStateA_cache]
    rw [show neededGoF (segB.startFrame + segB.frames - 1) segB.frames.toNat
        (segB.startFrame + 0) = [segB] from by decide]
    simp only [List.map_cons, List.map_nil, List.reverse_cons, List.reverse_nil,
      List.nil_append, List.cons_append]
    have e1 : segB.startFrame - segB.startFrame = (0 : Int) := by decide
    rw [e1]
    have e2 : (0 : Int) + segB.frames = 1024 := by decide
    rw [e2]
    rfl
  have hfind1 : assocFind (tileKey "f" 0 1024 cexParamsB)
      ((keyB, contentB) :: [(keyA, contentA)]) = some contentA := by
    show (if tileKey "f" 0 1024 cexParamsB = keyB then some contentB
      else assocFind (tileKey "f" 0 1024 cexParamsB) [(keyA, contentA)]) = some contentA
    rw [if_neg (by decide)]
    show (if tileKey "f" 0 1024 cexParamsB = keyA then some contentA else none) = some contentA
    rw [if_pos (by decide)]
  have hfind2 : assocFind (tileKey "f" 1024 1024 cexParamsB)
      ((keyB, contentB) :: [(keyA, contentA)]) = some contentB := by
    show (if tileKey "f" 1024 1024 cexParamsB = keyB then some contentB
      else assocFind (tileKey "f" 1024 1024 cexParamsB) [(keyA, contentA)]) = some contentB
    rw [if_pos (by decide)]
  have hcol : ∀ st2 : WState, st2.cache = (keyB, contentB) :: [(keyA, contentA)] →
      collectTiles st2 "f" cexParamsB [⟨0, 1024⟩, ⟨1024, 1024⟩]
        = some [contentA, contentB] := by
    intro st2 hc2
    show (match assocFind (tileKey "f" (0 : Int) (1024 : Int) cexParamsB) st2.cache with
      | none => none
      | some v =>
        match collectTiles st2 "f" cexParamsB [⟨1024, 1024⟩] with
        | none => none
        | some vs => some (v :: vs)) = some [contentA, contentB]
    rw [hc2, hfind1]
    show (match collectTiles st2 "f" cexParamsB [⟨1024, 1024⟩] with
      | none => none
      | some vs => some (contentA :: vs)) = some [contentA, contentB]
    have : collectTiles st2 "f" cexParamsB [⟨1024, 1024⟩] = some [contentB] := by
      show (match assocFind (tileKey "f" (1024 : Int) (1024 : Int) cexParamsB) st2.cache with
        | none => none
        | some v =>
          match (some [] : Option (List (List Rat))) with
          | none => none
          | some vs => some (v :: vs)) = some [contentB]
      rw [hc2, hfind2]
    rw [this]
  rw [assembleWindowMel_snd, hmissB]
  simp only [fillSegments, computeSegment, hpcmA]
  rw [hstoreB]
  rw [show neededTiles (framesForWindow cexParamsB).1 (framesForWindow cexParamsB).2
      = [⟨0, 1024⟩, ⟨1024, 1024⟩] from by decide]
  rw [hcol ⟨cexStateA.pcmStore, (keyB, contentB) :: [(keyA, contentA)]⟩ rfl]
  show Except.ok ([contentA, contentB].flatten,
    (framesForWindow cexParamsB).2 - (framesForWindow cexParamsB).1 + 1) = _
  rw [show (framesForWindow cexParamsB).2 - (framesForWindow cexParamsB).1 + 1
      = (2048 : Int) from by decide]
  rw [show ([contentA, contentB] : List (List Rat)).flatten = contentA ++ contentB by simp]

/-- With the position-marker primitive, a segment's flattened usable rows
are the mapped marker values of the hop-aligned positions. -/
theorem flattenMel_segUsable_lin (cnt : Nat → Nat) (len : Nat) (seg : Tile) (p : Params) :
    flattenMel (segUsable melAtLin cnt len seg p) 1
      = (jsSlice ((List.range (cnt (segSliceLen len seg p))).map
          (fun k : Nat => (sliceStartIdx len seg p : Int) + (k : Int) * p.hop_length))
          (framesPerPad p) (framesPerPad p + seg.frames)).map valAt := by
  unfold segUsable segMelFrames
  have hcomp : (List.range (cnt (segSliceLen len seg p))).map
      (fun k : Nat => melAtLin ((sliceStartIdx len seg p : Int) + (k : Int) * p.hop_length))
      = ((List.range (cnt (segSliceLen len seg p))).map
          (fun k : Nat => (sliceStartIdx len seg p : Int) + (k : Int) * p.hop_length)).map
          (fun s => [valAt s]) := by
    rw [List.map_map]
    rfl
  rw [hcomp, jsSlice_map, flattenMel_map_singleton]

unseal Rat.mul Rat.add Rat.sub Rat.inv in
theorem contentA_length : contentA.length = 1024 := by
  unfold contentA
  rw [flattenMel_length]
  have hu : usableA.length = 1024 :=
    segUsable_length melAtLin cntAll 4096 segA cexParamsA (by decide) (by decide) (by decide)
  rw [jsSlice_length, hu]
  decide

unseal Rat.mul Rat.add Rat.sub Rat.inv in
theorem usableB_slice_all : jsSlice usableB 0 1024 = usableB := by
  have hu : usableB.length = 1024 :=
    segUsable_length melAtLin cntAll 4096 segB cexParamsB (by decide) (by decide) (by decide)
  refine jsSlice_all usableB 1024 (by norm_num) ?_
  rw [hu]
  decide

unseal Rat.mul Rat.add Rat.sub Rat.inv in
theorem contentB_get0 : contentB.get? 0 = some (valAt 1024) := by
  unfold contentB
  rw [usableB_slice_all]
  show (flattenMel (segUsable melAtLin cntAll 4096 segB cexParamsB) 1).get? 0 = _
  rw [flattenMel_segUsable_lin]
  rw [show segSliceLen 4096 segB cexParamsB = 1032 from by decide]
  rw [show sliceStartIdx 4096 segB cexParamsB = 1020 from by decide]
  rw [show framesPerPad cexParamsB = 4 from by decide]
  rw [show cntAll 1032 = 1032 from rfl]
  rw [List.get?_map]
  rw [jsSlice_get?]
  · rw [List.length_map, List.length_range]
    rw [show jsSliceIdx 1032 4 + 0 = 4 from by decide]
    rw [List.get?_map]
    rw [List.get?_range (by norm_num)]
    decide
  · rw [List.length_map, List.length_range]
    decide

unseal Rat.mul Rat.add Rat.sub Rat.inv in
theorem refB_get1024 :
    (refWindowBuffer melAtLin cntAll 4096 cexParamsB).get? 1024 = some (valAt 1028) := by
  rw [refWindowBuffer_eq_segUsable]
  rw [show (⟨(framesForWindow cexParamsB).1,
      (framesForWindow cexParamsB).2 - (framesForWindow cexParamsB).1 + 1⟩ : Tile)
      = (⟨0, 2048⟩ : Tile) from by decide]
  rw [show cexParamsB.n_mels = 1 from rfl]
  rw [flattenMel_segUsable_lin]
  rw [show segSliceLen 4096 (⟨0, 2048⟩ : Tile) cexParamsB = 2052 from by decide]
  rw [show sliceStartIdx 4096 (⟨0, 2048⟩ : Tile) cexParamsB = 0 from by decide]
  rw [show framesPerPad cexParamsB = 4 from by decide]
  rw [show cntAll 2052 = 2052 from rfl]
  rw [List.get?_map]
  rw [jsSlice_get?]
  · rw [List.length_map, List.length_range]
    rw [show jsSliceIdx 2052 4 + 1024 = 1028 from by decide]
    rw [List.get?_map]
    rw [List.get?_range (by norm_num)]
    decide
  · rw [List.length_map, List.length_range]
    decide

unseal Rat.mul Rat.add Rat.sub Rat.inv in
/-- C1 counterexample: starting from an empty cache, render A covers
frames `[0, 1023]` (left padding clamped at sample 0) and render B then
covers `[0, 2047]`, reusing render A's cached tile.  The concatenation of
the tiles the Window Assembler produces for render B differs from the
single full-range Spectral Primitive call with the same padding discard:
at frame 1024 the concatenation holds the row of sample position 1024
while the reference holds the row of position 1028 (a
`floor(n_fft/hop_length)`-frame shift caused by the clamp). -/
theorem tiles_concat_ne_reference :
    ∃ buf : List Rat,
      (assembleWindowMel melAtLin cntAll cexStateA "f" cexParamsB).2
        = Except.ok (buf, 2048) ∧
      buf ≠ refWindowBuffer melAtLin cntAll 4096 cexParamsB := by
  refine ⟨contentA ++ contentB, cexAssembleB, ?_⟩
  intro heq
  have h1 : (contentA ++ contentB).get? 1024 = some (valAt 1024) := by
    rw [List.get?_append_right (by rw [contentA_length]), contentA_length]
    exact contentB_get0
  rw [heq, refB_get1024] at h1
  have h2 : valAt 1028 = valAt 1024 := by
    injection h1
  exact absurd h2 (by decide)

/-! ### Display mapper: truncation vs rounding, and range safety -/

/-- A concrete `Math.pow` instance with `pow x 1 = x` (true of JS `Math.pow`
for every finite `x`), used to evaluate the display mapper at `gamma = 1`. -/
def pwId : Rat → Rat → FVal := fun x _ => FVal.fin x

/-- A concrete `Math.pow` instance returning `+Infinity`, as JS
`Math.pow(0, -1)` does. -/
def pwInf : Rat → Rat → FVal := fun _ _ => FVal.pinf

/-- Modelled from the spec (section 4.4, per-sample mapping), amended:
the final index is `adjusted * 255` truncated toward zero (which on the
clamped nonnegative `adjusted` is the floor), not rounded to nearest. -/
def specMapIndexTrunc (pw : Rat → Rat → FVal)
    (v smin smax gamma contrast brightness : Rat) : Int :=
  let norm := max 0 (min 1 ((v - smin) / (smax - smin)))
  match pw norm gamma with
  | FVal.fin g =>
    Int.floor ((max 0 (min 1 ((g - 1/2) * contrast + 1/2 + brightness))) * 255)
  | _ => 0

unseal Rat.mul Rat.add Rat.sub Rat.inv in
/-- C6 counterexample: the rasterize loop computes the colormap index with
`(clampedValue * 255) | 0` — truncation — while the spec demands
`round(adjusted * 255)`.  At `v = 1`, `smin = 0`, `smax = 2`, `gamma = 1`,
`contrast = 1`, `brightness = 0` (with `Math.pow(x, 1) = x`) the adjusted
value is `0.5`, so the code produces index `127` where the spec's rounding
produces `128`. -/
theorem display_index_truncates_not_rounds :
    colorIndex pwId (FVal.fin 1) (FVal.fin 0) (FVal.fin 2) 1 1 0 = 127 ∧
    specMapIndex pwId 1 0 2 1 1 0 = 128 := by
  constructor
  · decide
  · decide

/-- The code's `normalizedValue` clamp on finite inputs with a
non-degenerate `[smin, smax]` range is the plain rational clamp. -/
theorem normClamped_fin (v smin smax : Rat) (hlt : smin < smax) :
    normClamped (FVal.fin v) (FVal.fin smin) (FVal.fin smax)
      = max 0 (min 1 ((v - smin) / (smax - smin))) := by
  unfold normClamped
  simp only [FVal.fsub, FVal.fneg, FVal.fadd, FVal.fdiv]
  rw [if_neg (by rw [← sub_eq_add_neg]; exact sub_ne_zero.mpr (ne_of_gt hlt))]
  rw [← sub_eq_add_neg, ← sub_eq_add_neg]

/-- C6 amended: on finite spectral values with `smin < smax`, whenever the
power step returns a finite number the rasterize loop's colormap index is
exactly the spec's per-sample mapping with `round` replaced by
truncation (floor, since the clamped value is nonnegative). -/
theorem display_index_is_trunc (pw : Rat → Rat → FVal)
    (v smin smax gamma contrast brightness g : Rat) (hlt : smin < smax)
    (h : pw (normClamped (FVal.fin v) (FVal.fin smin) (FVal.fin smax)) gamma = FVal.fin g) :
    colorIndex pw (FVal.fin v) (FVal.fin smin) (FVal.fin smax) gamma contrast brightness
      = specMapIndexTrunc pw v smin smax gamma contrast brightness := by
  have hn := normClamped_fin v smin smax hlt
  rw [hn] at h
  unfold specMapIndexTrunc
  simp only [h]
  unfold colorIndex clampedValue
  rw [hn, h]
  simp only [FVal.fsub, FVal.fneg, FVal.fadd, FVal.fmul, FVal.fclamp01, FVal.jsOr0]
  rw [if_pos (mul_nonneg (le_max_left _ _) (by norm_num))]
  rw [show g + -(1/2 : Rat) = g - 1/2 from by ring]

unseal Rat.mul Rat.add Rat.sub Rat.inv in
theorem display_index_is_trunc_witness :
    (0 : Rat) < 4 ∧
    pwId (normClamped (FVal.fin 1) (FVal.fin 0) (FVal.fin 4)) 1 = FVal.fin (1/4) ∧
    colorIndex pwId (FVal.fin 1) (FVal.fin 0) (FVal.fin 4) 1 1 0
      = specMapIndexTrunc pwId 1 0 4 1 1 0 :=
  ⟨by norm_num, by decide,
    display_index_is_trunc pwId 1 0 4 1 1 0 (1/4) (by norm_num) (by decide)⟩

/-- For every input to `Math.max(0, Math.min(1, x))` followed by
`(· * 255) | 0`, the result is an integer in `[0, 255]`. -/
theorem jsOr0_clamp_mul255_range (x : FVal) :
    0 ≤ FVal.jsOr0 (FVal.fmul (FVal.fclamp01 x) (FVal.fin 255)) ∧
    FVal.jsOr0 (FVal.fmul (FVal.fclamp01 x) (FVal.fin 255)) ≤ 255 := by
  cases x with
  | fin q =>
    simp only [FVal.fclamp01, FVal.fmul, FVal.jsOr0]
    have hc0 : (0 : Rat) ≤ max 0 (min 1 q) := le_max_left _ _
    have hc1 : max 0 (min 1 q) ≤ 1 := max_le (by norm_num) (min_le_left _ _)
    rw [if_pos (mul_nonneg hc0 (by norm_num))]
    constructor
    · exact Int.le_floor.mpr (by push_cast; exact mul_nonneg hc0 (by norm_num))
    · calc Int.floor (max 0 (min 1 q) * 255) ≤ Int.floor ((255 : Rat)) := by
            apply Int.floor_le_floor
            nlinarith
        _ = 255 := by norm_num
  | pinf =>
    simp only [FVal.fclamp01, FVal.fmul, FVal.jsOr0]
    rw [if_pos (by norm_num)]
    constructor
    · exact Int.le_floor.mpr (by norm_num)
    · calc Int.floor ((1 : Rat) * 255) ≤ Int.floor ((255 : Rat)) :=
            Int.floor_le_floor (by norm_num)
        _ = 255 := by norm_num
  | ninf =>
    simp only [FVal.fclamp01, FVal.fmul, FVal.jsOr0]
    rw [if_pos (by norm_num)]
    constructor
    · exact Int.le_floor.mpr (by norm_num)
    · calc Int.floor ((0 : Rat) * 255) ≤ Int.floor ((255 : Rat)) :=
            Int.floor_le_floor (by norm_num)
        _ = 255 := by norm_num
  | nan =>
    simp only [FVal.fclamp01, FVal.fmul, FVal.jsOr0]
    norm_num

/-- `Math.max(0, Math.min(1, x))` lands in `[0, 1]` whenever its result is
a number. -/
theorem fclamp01_fin_range (x : FVal) (q : Rat) (h : FVal.fclamp01 x = FVal.fin q) :
    0 ≤ q ∧ q ≤ 1 := by
  cases x with
  | fin p =>
    simp only [FVal.fclamp01] at h
    injection h with h
    subst h
    exact ⟨le_max_left _ _, max_le (by norm_num) (min_le_left _ _)⟩
  | pinf =>
    simp only [FVal.fclamp01] at h
    injection h with h
    subst h
    norm_num
  | ninf =>
    simp only [FVal.fclamp01] at h
    injection h with h
    subst h
    norm_num
  | nan =>
    simp only [FVal.fclamp01] at h
    exact FVal.noConfusion h

/-- Each RGBA quadruple of the lookup table is channel-clamped to
`[0, 255]` with alpha `255`. -/
theorem viridisLUT_bounds (i : Nat) :
    ∃ r g b : Int, viridisLUT i
      = (max 0 (min 255 r), max 0 (min 255 g), max 0 (min 255 b), 255) :=
  ⟨_, _, _, rfl⟩

unseal Rat.mul Rat.add Rat.sub Rat.inv in
/-- C9 counterexample: with `gamma = -1` and `contrast = 0` on a sample
equal to `smin` (so `norm = 0` and `Math.pow(0, -1) = Infinity`), the
rasterize loop's display intensity `clampedValue` is NaN — `Infinity * 0`
— hence not a number in `[0, 1]`; the spec's claim that every produced
display intensity lies in `[0, 1]` fails (the colormap index is still 0,
because `NaN | 0 = 0`). -/
theorem display_intensity_nan :
    clampedValue pwInf (FVal.fin 0) (FVal.fin 0) (FVal.fin 1) (-1) 0 0 = FVal.nan ∧
    FVal.isFiniteF (clampedValue pwInf (FVal.fin 0) (FVal.fin 0) (FVal.fin 1) (-1) 0 0)
      = false ∧
    colorIndex pwInf (FVal.fin 0) (FVal.fin 0) (FVal.fin 1) (-1) 0 0 = 0 := by
  refine ⟨by decide, by decide, by decide⟩

/-- C9 amended: for all inputs — any float spectral value, bounds,
gamma, contrast, brightness and any power-function behaviour, including
NaN and infinities throughout — the colormap index lies in `[0, 255]`
(so the 256-entry LUT access is in bounds), every LUT entry has its
channels clamped to `[0, 255]` and alpha exactly `255`, and whenever the
display intensity `clampedValue` is a number it lies in `[0, 1]`; the
intensity may however be NaN, so the spec's unconditional `[0, 1]` claim
holds only in this conditional form. -/
theorem display_mapper_safety (pw : Rat → Rat → FVal) (v smin smax : FVal)
    (gamma contrast brightness : Rat) :
    (0 ≤ colorIndex pw v smin smax gamma contrast brightness ∧
     colorIndex pw v smin smax gamma contrast brightness ≤ 255) ∧
    (∀ q : Rat, clampedValue pw v smin smax gamma contrast brightness = FVal.fin q →
       0 ≤ q ∧ q ≤ 1) ∧
    (∀ i : Nat, ∃ r g b : Int, viridisLUT i
      = (max 0 (min 255 r), max 0 (min 255 g), max 0 (min 255 b), 255)) := by
  refine ⟨?_, ?_, fun i => viridisLUT_bounds i⟩
  · exact jsOr0_clamp_mul255_range _
  · intro q h
    exact fclamp01_fin_range _ q h

theorem display_mapper_safety_witness :
    0 ≤ colorIndex pwInf (FVal.fin 0) (FVal.fin 0) (FVal.fin 1) (-1) 0 0 ∧
    colorIndex pwInf (FVal.fin 0) (FVal.fin 0) (FVal.fin 1) (-1) 0 0 ≤ 255 :=
  (display_mapper_safety pwInf (FVal.fin 0) (FVal.fin 0) (FVal.fin 1) (-1) 0 0).1

end SpectroWorker
